import Mathlib

/-!
Verification of the shard-coordination core of lifion-kinesis.

The development shallowly embeds:
* the State Store (lib/state-store.js): a single coordination document per
  (consumerGroup, streamName) pair, mutated only through DynamoDB-style
  conditional updates;
* the Polling Consumer loop (lib/polling-consumer.js): `pollForRecords` and
  `getShardIterator`, modelled as a step machine over an ordered shard log;
* the shard-lineage builder `getStreamShards` (lib/stream.js).

Modelling conventions:
* DynamoDB maps are association lists with right-to-replace insertion
  (`setSlot`), matching JS object key semantics.
* `generate()` (short-uuid) values are opaque; every operation takes the
  fresh value(s) it would generate as explicit arguments.
* ISO-8601 timestamps are modelled as milliseconds since the epoch (Nat).
* A DynamoDB call can fail with a service error; each operation takes a
  `fault : Option String` argument: `some code` means the underlying
  update call threw an error with that code, `none` means the call itself
  was healthy and the outcome is decided by the condition expression.
  A thrown error performs no write.
* JS truthiness on nullable strings is `jsTruthyO`: null/undefined and the
  empty string are falsy.
-/

/-- The record stored for one shard slot (state-store.js `ensureShardStateExists`). -/
structure ShardRecord where
  parent : Option String
  checkpoint : Option String
  depleted : Bool
  leaseOwner : Option String
  leaseExpiration : Option Nat
  version : Nat
deriving DecidableEq, Repr

/-- One consumer entry of the coordination document (state-store.js `registerConsumer`).
In standalone mode the entry carries its own shards sub-map. -/
structure ConsumerRecord where
  appName : String
  heartbeat : Nat
  host : String
  isStandalone : Bool
  pid : Nat
  startedOn : String
  shards : Option (List (String × ShardRecord))
deriving DecidableEq, Repr

/-- The coordination document (one per consumer group and stream). -/
structure StreamState where
  consumers : List (String × ConsumerRecord)
  shards : List (String × ShardRecord)
  streamCreatedOn : String
  version : Nat
deriving DecidableEq, Repr

/-- Lookup in a JS-object-like association list. -/
def lookupSlot (m : List (String × α)) (k : String) : Option α :=
  (m.find? (fun kv => kv.1 = k)).map (fun kv => kv.2)

/-- Set a key in a JS-object-like association list: replace the value in place
if the key exists, append otherwise. -/
def setSlot : List (String × α) → String → α → List (String × α)
  | [], k, v => [(k, v)]
  | kv :: t, k, v => if kv.1 = k then (k, v) :: t else kv :: setSlot t k v

/-- JS truthiness of a nullable string: null and the empty string are falsy. -/
def jsTruthyO : Option String → Bool
  | some s => !(s = "")
  | none => false

/-- Which shards sub-map a store instance addresses: the top-level `shards`
map in auto-assignment mode, or `consumers.<id>.shards` in standalone mode
(state-store.js `shardsPath`). -/
inductive ShardsPath
  | top
  | consumer (consumerId : String)
deriving DecidableEq, Repr

/-- Read the shards map addressed by a path; none when the document path is invalid. -/
def getShardsAt (st : StreamState) : ShardsPath → Option (List (String × ShardRecord))
  | ShardsPath.top => some st.shards
  | ShardsPath.consumer cid => (lookupSlot st.consumers cid).bind (fun r => r.shards)

/-- Write back the shards map addressed by a path. -/
def setShardsAt (st : StreamState) (p : ShardsPath) (m : List (String × ShardRecord)) :
    StreamState :=
  match p with
  | ShardsPath.top => { st with shards := m }
  | ShardsPath.consumer cid =>
    match lookupSlot st.consumers cid with
    | some r => { st with consumers := setSlot st.consumers cid { r with shards := some m } }
    | none => st

/-- The shard record stored at an address of the document. -/
def shardAt (st : StreamState) (p : ShardsPath) (shardId : String) : Option ShardRecord :=
  (getShardsAt st p).bind (fun m => lookupSlot m shardId)

/-- The DynamoDB error code raised when a condition expression fails. -/
def condFail : String := "ConditionalCheckFailedException"

/-- StateStore.lockShardLease (state-store.js lines 274-316): one conditional
update that sets leaseOwner to this consumer, leaseExpiration to now plus the
lease term and a fresh version, conditioned on the slot holding the expected
version. The conditional-check failure (also raised when the slot or a path
component is missing) is mapped to `false`; other errors are rethrown. -/
def lockShardLeaseDoc (st : StreamState) (p : ShardsPath) (shardId consumerId : String)
    (now leaseTermTimeout freshVersion expectedVersion : Nat) (fault : Option String) :
    Except String (StreamState × Bool) :=
  match fault with
  | some code => if code = condFail then Except.ok (st, false) else Except.error code
  | none =>
    match getShardsAt st p with
    | none => Except.ok (st, false)
    | some m =>
      match lookupSlot m shardId with
      | none => Except.ok (st, false)
      | some r =>
        if r.version = expectedVersion then
          Except.ok
            (setShardsAt st p
              (setSlot m shardId
                { r with
                  leaseOwner := some consumerId
                  leaseExpiration := some (now + leaseTermTimeout)
                  version := freshVersion }),
            true)
        else Except.ok (st, false)

/-- StateStore.releaseShardLease (state-store.js lines 318-354): generates the
released version up front, then one conditional update setting leaseOwner and
leaseExpiration to null and the version to the released one, conditioned on
the expected version; returns the released version on success, null on a
conditional-check failure, and rethrows other errors. -/
def releaseShardLeaseDoc (st : StreamState) (p : ShardsPath) (shardId : String)
    (releasedVersion expectedVersion : Nat) (fault : Option String) :
    Except String (StreamState × Option Nat) :=
  match fault with
  | some code => if code = condFail then Except.ok (st, none) else Except.error code
  | none =>
    match getShardsAt st p with
    | none => Except.ok (st, none)
    | some m =>
      match lookupSlot m shardId with
      | none => Except.ok (st, none)
      | some r =>
        if r.version = expectedVersion then
          Except.ok
            (setShardsAt st p
              (setSlot m shardId
                { r with
                  leaseOwner := none
                  leaseExpiration := none
                  version := releasedVersion }),
            some releasedVersion)
        else Except.ok (st, none)

/-- Claim C1 helper: the document after a successful lease lock. -/
def lockedState (st : StreamState) (p : ShardsPath) (shardId consumerId : String)
    (now leaseTermTimeout freshVersion : Nat) (r : ShardRecord)
    (m : List (String × ShardRecord)) : StreamState :=
  setShardsAt st p
    (setSlot m shardId
      { r with
        leaseOwner := some consumerId
        leaseExpiration := some (now + leaseTermTimeout)
        version := freshVersion })

/-- Sample shard record used by concrete witnesses. -/
def rW : ShardRecord :=
  { parent := none, checkpoint := some "100", depleted := false,
    leaseOwner := none, leaseExpiration := none, version := 3 }

/-- Sample coordination document used by concrete witnesses. -/
def stW : StreamState :=
  { consumers := [], shards := [("shard-0", rW)], streamCreatedOn := "c", version := 0 }

/-- Claim C8 helper: the document after a successful lease release. -/
def releasedState (st : StreamState) (p : ShardsPath) (shardId : String)
    (releasedVersion : Nat) (r : ShardRecord) (m : List (String × ShardRecord)) :
    StreamState :=
  setShardsAt st p
    (setSlot m shardId
      { r with leaseOwner := none, leaseExpiration := none, version := releasedVersion })

/-- StateStore.ensureShardStateExists (state-store.js lines 227-255): one update
writing a fresh shard record (null checkpoint, not depleted, no lease owner),
conditioned on the slot being absent. The conditional-check failure (slot
already present) is swallowed; an invalid document path (standalone mode with
the consumer entry missing) raises a validation error, and any error other
than the conditional-check failure is rethrown. A thrown error writes nothing. -/
def ensureShardStateExistsDoc (st : StreamState) (p : ShardsPath) (shardId : String)
    (parent : Option String) (freshVersion : Nat) (fault : Option String) :
    Except String StreamState :=
  match fault with
  | some code => if code = condFail then Except.ok st else Except.error code
  | none =>
    match getShardsAt st p with
    | none => Except.error "ValidationException"
    | some m =>
      match lookupSlot m shardId with
      | some _ => Except.ok st
      | none =>
        Except.ok
          (setShardsAt st p
            (setSlot m shardId
              { parent := parent, checkpoint := none, depleted := false,
                leaseOwner := none, leaseExpiration := none, version := freshVersion }))

/-- StateStore.storeShardCheckpoint (state-store.js lines 356-373): one
unconditional update writing the given checkpoint and a fresh version; there
is no try/catch, so every error (including an invalid document path when the
slot is missing) propagates to the caller. -/
def storeShardCheckpointDoc (st : StreamState) (p : ShardsPath)
    (shardId checkpoint : String) (freshVersion : Nat) (fault : Option String) :
    Except String StreamState :=
  match fault with
  | some code => Except.error code
  | none =>
    match getShardsAt st p with
    | none => Except.error "ValidationException"
    | some m =>
      match lookupSlot m shardId with
      | none => Except.error "ValidationException"
      | some r =>
        Except.ok
          (setShardsAt st p
            (setSlot m shardId
              { r with checkpoint := some checkpoint, version := freshVersion }))

/-- One entry of the shards-data object built by getStreamShards (stream.js)
and consumed by markShardAsDepleted. -/
structure ShardData where
  parent : Option String
  startingSequenceNumber : String
deriving DecidableEq, Repr

/-- The children of a parent shard among the given shards data
(state-store.js lines 381-388, the filter over Object.keys(shardsData)). -/
def childrenOf (shardsData : List (String × ShardData)) (parentShardId : String) :
    List (String × ShardData) :=
  shardsData.filter (fun kv => kv.2.parent = some parentShardId)

/-- One child clause of the depletion update expression: the child checkpoint
is set to its starting sequence number together with a fresh version. -/
def applyChildCheckpoint (vChild : String → Nat) (acc : List (String × ShardRecord))
    (c : String × ShardData) : List (String × ShardRecord) :=
  match lookupSlot acc c.1 with
  | some r =>
    setSlot acc c.1
      { r with checkpoint := some c.2.startingSequenceNumber, version := vChild c.1 }
  | none => acc

/-- The single update expression issued at the end of markShardAsDepleted
(state-store.js lines 399-436): parent depleted with a fresh version, every
child checkpoint set to its starting sequence number with a fresh version.
It returns none when a document path is invalid, in which case the whole
update throws and nothing at all is written (DynamoDB updates are atomic). -/
def depletedUpdate (m : List (String × ShardRecord)) (parentShardId : String)
    (vParent : Nat) (children : List (String × ShardData)) (vChild : String → Nat) :
    Option (List (String × ShardRecord)) :=
  match lookupSlot m parentShardId with
  | none => none
  | some pr =>
    if children.all (fun c => (lookupSlot m c.1).isSome) then
      some (children.foldl (applyChildCheckpoint vChild)
        (setSlot m parentShardId { pr with depleted := true, version := vParent }))
    else none

/-- The Promise.all over the ensureShardStateExists calls for the children
(state-store.js lines 390-397), sequentialized; the first error aborts. -/
def ensureAll (p : ShardsPath) (vEnsure : String → Nat) :
    List (String × ShardData) → StreamState → Except String StreamState
  | [], st => Except.ok st
  | c :: cs, st =>
    match ensureShardStateExistsDoc st p c.1 c.2.parent (vEnsure c.1) none with
    | Except.error e => Except.error e
    | Except.ok st1 => ensureAll p vEnsure cs st1

/-- StateStore.markShardAsDepleted (state-store.js lines 375-437): reads the
stream state (the parent record is taken from the top-level shards map), and
when the parent checkpoint is truthy computes the children from the shards
data; it then ensures each child slot exists and finally issues the single
update of depletedUpdate. There is no try/catch: every error propagates.
The fresh versions generated for the ensure calls, the children and the
parent are supplied as vEnsure, vChild and vParent. -/
def markShardAsDepletedDoc (st : StreamState) (p : ShardsPath)
    (shardsData : List (String × ShardData)) (parentShardId : String)
    (vParent : Nat) (vEnsure vChild : String → Nat) (fault : Option String) :
    Except String StreamState :=
  match lookupSlot st.shards parentShardId with
  | none => Except.error "TypeError"
  | some parentShard =>
    let childrenShards :=
      if jsTruthyO parentShard.checkpoint then childrenOf shardsData parentShardId
      else []
    match ensureAll p vEnsure childrenShards st with
    | Except.error e => Except.error e
    | Except.ok st1 =>
      match fault with
      | some code => Except.error code
      | none =>
        match getShardsAt st1 p with
        | none => Except.error "ValidationException"
        | some m =>
          match depletedUpdate m parentShardId vParent childrenShards vChild with
          | none => Except.error "ValidationException"
          | some m2 => Except.ok (setShardsAt st1 p m2)

/-- StateStore.registerConsumer (state-store.js lines 179-225): one update
creating the consumer entry (with an empty shards sub-map in standalone mode),
conditioned on the entry being absent; on the conditional-check failure a
second unconditional update refreshes only the heartbeat, with every error of
that second update swallowed; other errors of the first update are rethrown. -/
def registerConsumerDoc (st : StreamState) (consumerId : String) (heartbeat : Nat)
    (appName host startedOn : String) (pid : Nat) (isStandalone : Bool)
    (fault1 fault2 : Option String) : Except String StreamState :=
  let heartbeatOnly : Except String StreamState :=
    match fault2 with
    | some _ => Except.ok st
    | none =>
      match lookupSlot st.consumers consumerId with
      | some r =>
        Except.ok
          { st with
            consumers := setSlot st.consumers consumerId { r with heartbeat := heartbeat } }
      | none => Except.ok st
  match fault1 with
  | some code => if code = condFail then heartbeatOnly else Except.error code
  | none =>
    match lookupSlot st.consumers consumerId with
    | some _ => heartbeatOnly
    | none =>
      Except.ok
        { st with
          consumers := setSlot st.consumers consumerId
            { appName := appName, heartbeat := heartbeat, host := host,
              isStandalone := isStandalone, pid := pid, startedOn := startedOn,
              shards := if isStandalone then some [] else none } }

/-- Whether a consumer entry is considered dead: its heartbeat age exceeds the
failure timeout (state-store.js line 143; timestamps in epoch milliseconds). -/
def isOldConsumer (now timeout : Nat) (kv : String × ConsumerRecord) : Bool :=
  timeout < now - kv.2.heartbeat

/-- StateStore.clearOldConsumers (state-store.js lines 134-177): reads the
document, collects the consumers whose heartbeat age exceeds the timeout, and
returns without any further call when there are none; otherwise one update
removes exactly those entries and refreshes the top-level version, conditioned
on the version just read (which holds here, the model being sequential); the
conditional-check failure is swallowed and other errors are rethrown. -/
def clearOldConsumersDoc (st : StreamState) (now timeout freshVersion : Nat)
    (fault : Option String) : Except String StreamState :=
  let oldConsumers := (st.consumers.filter (isOldConsumer now timeout)).map (fun kv => kv.1)
  if oldConsumers.length = 0 then Except.ok st
  else
    match fault with
    | some code => if code = condFail then Except.ok st else Except.error code
    | none =>
      Except.ok
        { st with
          consumers := st.consumers.filter (fun kv => !isOldConsumer now timeout kv),
          version := freshVersion }

/-- Sample consumer entry used by concrete witnesses: heartbeat at epoch 1000. -/
def cW : ConsumerRecord :=
  { appName := "app", heartbeat := 1000, host := "h", isStandalone := false,
    pid := 4, startedOn := "s", shards := none }

/-- Sample document with one registered consumer, used by concrete witnesses. -/
def stWc : StreamState :=
  { consumers := [("cid-a", cW)], shards := [], streamCreatedOn := "c", version := 0 }

/-- Parent record with an empty (non-null yet falsy) checkpoint, exhibiting the
difference between the null test of the claim and the truthiness test of the
source. -/
def prCex : ShardRecord :=
  { parent := none, checkpoint := some "", depleted := false,
    leaseOwner := none, leaseExpiration := none, version := 1 }

/-- Document holding only the parent shard with the empty checkpoint. -/
def stCex : StreamState :=
  { consumers := [], shards := [("shard-p", prCex)], streamCreatedOn := "c", version := 0 }

/-- Shards data advertising one child of the parent shard. -/
def sdCex : List (String × ShardData) :=
  [("shard-c", { parent := some "shard-p", startingSequenceNumber := "50" })]

/-- Any State Store operation that writes the coordination document, carrying
the path of the issuing instance, the arguments, the fresh versions it would
generate and the fault its service call may raise. -/
inductive StoreOp
  | ensure (p : ShardsPath) (shardId : String) (parent : Option String)
      (v : Nat) (fault : Option String)
  | lock (p : ShardsPath) (shardId consumerId : String)
      (now term v expect : Nat) (fault : Option String)
  | release (p : ShardsPath) (shardId : String) (v expect : Nat)
      (fault : Option String)
  | checkpoint (p : ShardsPath) (shardId cp : String) (v : Nat)
      (fault : Option String)
  | deplete (p : ShardsPath) (shardsData : List (String × ShardData))
      (parentShardId : String) (vParent : Nat) (vEnsure vChild : String → Nat)
      (fault : Option String)
  | register (consumerId : String) (heartbeat : Nat) (appName host startedOn : String)
      (pid : Nat) (isStandalone : Bool) (fault1 fault2 : Option String)
  | clearOld (now timeout v : Nat) (fault : Option String)

/-- The document after running a State Store operation; an operation that
throws leaves the document as it was (for the depletion operation the
aborted ensure-phase writes, which only create absent slots, are elided). -/
def applyStoreOp (st : StreamState) : StoreOp → StreamState
  | StoreOp.ensure p sid par v fa =>
    match ensureShardStateExistsDoc st p sid par v fa with
    | Except.ok st2 => st2
    | Except.error _ => st
  | StoreOp.lock p sid cid now term v ex fa =>
    match lockShardLeaseDoc st p sid cid now term v ex fa with
    | Except.ok (st2, _) => st2
    | Except.error _ => st
  | StoreOp.release p sid v ex fa =>
    match releaseShardLeaseDoc st p sid v ex fa with
    | Except.ok (st2, _) => st2
    | Except.error _ => st
  | StoreOp.checkpoint p sid cp v fa =>
    match storeShardCheckpointDoc st p sid cp v fa with
    | Except.ok st2 => st2
    | Except.error _ => st
  | StoreOp.deplete p sd psid vp ve vc fa =>
    match markShardAsDepletedDoc st p sd psid vp ve vc fa with
    | Except.ok st2 => st2
    | Except.error _ => st
  | StoreOp.register cid hb an ho so pid isS f1 f2 =>
    match registerConsumerDoc st cid hb an ho so pid isS f1 f2 with
    | Except.ok st2 => st2
    | Except.error _ => st
  | StoreOp.clearOld now tmo v fa =>
    match clearOldConsumersDoc st now tmo v fa with
    | Except.ok st2 => st2
    | Except.error _ => st

/-- Depleted slots of a shards map survive a map transformation, still depleted. -/
def mapDPS (m m2 : List (String × ShardRecord)) : Prop :=
  ∀ sid r, lookupSlot m sid = some r → r.depleted = true →
    ∃ r2, lookupSlot m2 sid = some r2 ∧ r2.depleted = true

/-- Depleted slots of the document survive a document transformation, still depleted. -/
def docDPS (st st2 : StreamState) : Prop :=
  ∀ p sid r, shardAt st p sid = some r → r.depleted = true →
    ∃ r2, shardAt st2 p sid = some r2 ∧ r2.depleted = true

/-- Weak depletion preservation: a depleted slot that still exists after the
transformation is still depleted (the slot may have been deleted). -/
def docDPW (st st2 : StreamState) : Prop :=
  ∀ p sid r r2, shardAt st p sid = some r → r.depleted = true →
    shardAt st2 p sid = some r2 → r2.depleted = true

/-- Parameters of a stream-service getShardIterator request. -/
structure GetIterParams where
  ShardId : String
  ShardIteratorType : String
  StreamName : String
  StartingSequenceNumber : Option String
deriving DecidableEq, Repr

/-- The request issued when a truthy checkpoint sequence number is known:
iterator type AFTER_SEQUENCE_NUMBER at that sequence. -/
def afterSeqParams (streamName shardId : String) (seq : Option String) :
    GetIterParams :=
  { ShardId := shardId, ShardIteratorType := "AFTER_SEQUENCE_NUMBER",
    StreamName := streamName, StartingSequenceNumber := seq }

/-- The request issued without a checkpoint: the initial-position iterator
type, no starting sequence number. -/
def initPosParams (streamName shardId initialPositionInStream : String) :
    GetIterParams :=
  { ShardId := shardId, ShardIteratorType := initialPositionInStream,
    StreamName := streamName, StartingSequenceNumber := none }

/-- polling-consumer.js getShardIterator (lines 47-74), instrumented with the
list of requests it issues. The request uses AFTER_SEQUENCE_NUMBER at the
sequence number when one is supplied (truthy), the initial-position type
otherwise; when the checkpoint request fails with InvalidArgumentException it
is retried exactly once without the sequence number; every other error, and
any error of the no-sequence request, propagates. The service is a function
from request parameters to the answer. -/
def getShardIterator (svc : GetIterParams → Except String String)
    (streamName shardId initialPositionInStream : String)
    (sequenceNumber : Option String) : Except String String × List GetIterParams :=
  let params : GetIterParams :=
    { ShardId := shardId
      ShardIteratorType :=
        if jsTruthyO sequenceNumber then "AFTER_SEQUENCE_NUMBER"
        else initialPositionInStream
      StreamName := streamName
      StartingSequenceNumber :=
        if jsTruthyO sequenceNumber then sequenceNumber else none }
  match svc params with
  | Except.ok it => (Except.ok it, [params])
  | Except.error code =>
    if code = "InvalidArgumentException" ∧ jsTruthyO sequenceNumber = true then
      let params2 := initPosParams streamName shardId initialPositionInStream
      (svc params2, [params, params2])
    else (Except.error code, [params])

/-- Sample stream service that rejects checkpoint iterators as invalid and
answers the initial-position request, exercising the fallback path. -/
def svcW : GetIterParams → Except String String := fun p =>
  if p.ShardIteratorType = "AFTER_SEQUENCE_NUMBER" then
    Except.error "InvalidArgumentException"
  else Except.ok "ITER"

/-- Sample depleted shard record used by the depletion-permanence witness. -/
def rD : ShardRecord :=
  { parent := none, checkpoint := some "1", depleted := true,
    leaseOwner := none, leaseExpiration := none, version := 2 }

/-- Sample document holding one depleted shard slot. -/
def stD : StreamState :=
  { consumers := [], shards := [("sd", rD)], streamCreatedOn := "c", version := 0 }

/-- Shards data advertising one child of the witness parent shard. -/
def sdW : List (String × ShardData) :=
  [("shard-1", { parent := some "shard-0", startingSequenceNumber := "200" })]

/-- One shard entry as returned by the stream service listShards call. -/
structure ListedShard where
  ShardId : String
  ParentShardId : Option String
  StartingSequenceNumber : String
deriving DecidableEq, Repr

/-- The JS idiom x || null: an absent or empty parent id becomes null
(stream.js line 226). -/
def jsOrNull : Option String → Option String
  | some s => if s = "" then none else some s
  | none => none

/-- Object.fromEntries over a list of pairs: a JS object, later entries
overwriting earlier ones, insertion order preserved. -/
def fromEntries (l : List (String × α)) : List (String × α) :=
  l.foldl (fun m kv => setSlot m kv.1 kv.2) []

/-- The map built by getStreamShards before lineage pruning (stream.js lines
221-231): ShardId to parent (normalized by the or-null idiom) and starting
sequence number. -/
def buildShardEntries (Shards : List ListedShard) : List (String × ShardData) :=
  fromEntries (Shards.map (fun s =>
    (s.ShardId,
      { parent := jsOrNull s.ParentShardId,
        startingSequenceNumber := s.StartingSequenceNumber })))

/-- One iteration of the lineage pruning loop (stream.js lines 233-239): a
shard with a parent that is not a key of the map has its parent erased. -/
def pruneParentStep (m : List (String × ShardData)) (id : String) :
    List (String × ShardData) :=
  match lookupSlot m id with
  | none => m
  | some sh =>
    match sh.parent with
    | none => m
    | some par =>
      if (lookupSlot m par).isNone then setSlot m id { sh with parent := none } else m

/-- stream.js getStreamShards (lines 216-242): builds the shard map from the
listing, then iterates over its keys promoting to root every shard whose
advertised parent is absent from the map. -/
def getStreamShards (Shards : List ListedShard) : List (String × ShardData) :=
  let shards := buildShardEntries Shards
  (shards.map Prod.fst).foldl pruneParentStep shards

/-- The final value of one entry after pruning, relative to the pre-pruning
map m0. -/
def pruneParent (m0 : List (String × ShardData)) (sh : ShardData) : ShardData :=
  match sh.parent with
  | some par => if (lookupSlot m0 par).isSome then sh else { sh with parent := none }
  | none => sh

/-- Sample service listing used by the lineage witness: a root shard, a child
of it, and a shard whose advertised parent is beyond the retention horizon. -/
def shardsListW : List ListedShard :=
  [{ ShardId := "s0", ParentShardId := none, StartingSequenceNumber := "10" },
   { ShardId := "s1", ParentShardId := some "s0", StartingSequenceNumber := "20" },
   { ShardId := "s2", ParentShardId := some "sX", StartingSequenceNumber := "30" }]

/-- Configuration of a Polling Consumer (polling-consumer.js constructor
options relevant to the poll loop). -/
structure PollConfig where
  useAutoCheckpoints : Bool
  usePausedPolling : Bool
  limit : Nat
  noRecordsPollDelay : Nat
  pollDelay : Nat
  startFromLatest : Bool
deriving DecidableEq, Repr

/-- Mutable state of a Polling Consumer. The shard is modelled as a list of
record sequence numbers (the log); a shard iterator is an index into it; the
checkpoints the instance has written to the State Store via
storeShardCheckpoint are recorded in order in written. -/
structure PollState where
  iter : Option Nat
  checkpoint : Option Nat
  seqNumToCheckpoint : Option Nat
  written : List Nat
  stopped : Bool
deriving DecidableEq, Repr

/-- Observable events of one pollForRecords run, in order. wroteCheckpoint is
a storeShardCheckpoint call; fetched is the getRecords answer (records, next
iterator, millisBehindLatest); pushed is the pushToStream delivery;
markedDepleted is the markShardAsDepleted call on shard end. -/
inductive PollEvent
  | wroteCheckpoint (seq : Nat)
  | fetched (records : List Nat) (nextIter : Option Nat) (msBehind : Int)
  | pushed (records : List Nat)
  | markedDepleted
deriving DecidableEq, Repr

/-- Outcome of one pollForRecords run: its events and the timer it scheduled
(some d is setTimeout(pollForRecords, d); none means no reschedule). -/
structure PollOutcome where
  events : List PollEvent
  delay : Option Nat
deriving DecidableEq, Repr

/-- Environment of one pollForRecords run: the clock, the lease expiration the
instance currently holds, the reported millisBehindLatest, and whether the
held iterator has expired (ExpiredIteratorException handling drops it and
re-enters the loop). -/
structure PollInput where
  now : Nat
  leaseExpiration : Nat
  msBehind : Int
  expireIter : Bool
deriving DecidableEq, Repr

/-- Index of the first record after the given sequence number, as requested by
an AFTER_SEQUENCE_NUMBER iterator. -/
def afterSeqIndex (log : List Nat) (seq : Nat) : Nat :=
  log.countP (fun x => decide (x ≤ seq))

/-- Step 2 of the poll loop (polling-consumer.js lines 117-120): a pending
seqNumToCheckpoint from paused polling is stored before anything else. -/
def writePending (s : PollState) : PollState × List PollEvent :=
  match s.seqNumToCheckpoint with
  | some q =>
    ({ s with
        written := s.written ++ [q]
        checkpoint := some q
        seqNumToCheckpoint := none },
     [PollEvent.wroteCheckpoint q])
  | none => (s, [])

/-- Iterator acquisition (polling-consumer.js lines 122-149): the held
iterator, else AFTER_SEQUENCE_NUMBER at the checkpoint, else the
initial-position iterator (LATEST is the end of the log, TRIM_HORIZON its
start). -/
def acquireIndex (cfg : PollConfig) (log : List Nat) (s : PollState) : Nat :=
  match s.iter with
  | some i => i
  | none =>
    match s.checkpoint with
    | some c => afterSeqIndex log c
    | none => if cfg.startFromLatest then log.length else 0

/-- Main phase of pollForRecords (polling-consumer.js lines 117-199), entered
once the lease is known to be live: stores a pending paused-polling checkpoint
first; acquires an iterator; fetches up to limit records; on zero records
either marks the shard depleted and stops (no next iterator) or reschedules
(noRecordsPollDelay when caught up, with zero delay otherwise); on records it
auto-checkpoints the last sequence number (immediately, or stashed into
seqNumToCheckpoint under paused polling), pushes downstream, and reschedules
after pollDelay unless paused polling is on. -/
def pollMain (cfg : PollConfig) (log : List Nat) (closed : Bool) (msBehind : Int)
    (s : PollState) : PollState × PollOutcome :=
  let sw := writePending s
  let s1 := sw.1
  let evs0 := sw.2
  let i := acquireIndex cfg log s1
  let records := (log.drop i).take cfg.limit
  let i2 := i + records.length
  let nextIter : Option Nat :=
    if closed = true ∧ log.length ≤ i2 then none else some i2
  let s2 := { s1 with iter := nextIter }
  let fetchedEv := PollEvent.fetched records nextIter msBehind
  if records.isEmpty then
    match nextIter with
    | none =>
      ({ s2 with stopped := true },
       { events := evs0 ++ [fetchedEv, PollEvent.markedDepleted], delay := none })
    | some _ =>
      (s2, { events := evs0 ++ [fetchedEv],
             delay := some (if msBehind ≤ 0 then cfg.noRecordsPollDelay else 0) })
  else
    let last := records.getLastD 0
    let sc : PollState × List PollEvent :=
      if cfg.useAutoCheckpoints then
        if cfg.usePausedPolling then
          ({ s2 with seqNumToCheckpoint := some last }, [])
        else
          ({ s2 with written := s2.written ++ [last], checkpoint := some last },
           [PollEvent.wroteCheckpoint last])
      else (s2, [])
    (sc.1,
     { events := evs0 ++ [fetchedEv] ++ sc.2 ++ [PollEvent.pushed records],
       delay := if cfg.usePausedPolling then none else some cfg.pollDelay })

/-- One run of pollForRecords (polling-consumer.js lines 84-210) against a
shard log: a stopped consumer does nothing; an expired iterator is dropped
before the body; an expired lease stops the consumer; otherwise the main
phase runs. -/
def pollStep (cfg : PollConfig) (log : List Nat) (closed : Bool) (inp : PollInput)
    (s0 : PollState) : PollState × PollOutcome :=
  if s0.stopped then (s0, { events := [], delay := none })
  else
    let s := if inp.expireIter then { s0 with iter := none } else s0
    if inp.leaseExpiration < inp.now then
      ({ s with stopped := true }, { events := [], delay := none })
    else pollMain cfg log closed inp.msBehind s

/-- Repeated pollForRecords runs under a sequence of environments. -/
def runPoll (cfg : PollConfig) (log : List Nat) (closed : Bool) :
    List PollInput → PollState → PollState
  | [], s => s
  | inp :: rest, s => runPoll cfg log closed rest (pollStep cfg log closed inp s).1

/-- Every element of the written list is at most q. -/
def writtenUB (w : List Nat) (q : Nat) : Prop := ∀ x ∈ w, x ≤ q

/-- Invariant of the poll loop over a sorted log: the checkpoints written so
far are non-decreasing, bounded by the pending stash and the current
checkpoint, and every record still ahead of the iterator is at least as large
as everything written and stashed. -/
def pollInv (log : List Nat) (s : PollState) : Prop :=
  List.Chain' (· ≤ ·) s.written ∧
  (∀ q, s.seqNumToCheckpoint = some q → writtenUB s.written q) ∧
  (∀ c, s.checkpoint = some c → writtenUB s.written c) ∧
  (s.written = [] ∨ ∃ c, s.checkpoint = some c) ∧
  (∀ i, s.iter = some i → ∀ x ∈ log.drop i,
    writtenUB s.written x ∧ ∀ q, s.seqNumToCheckpoint = some q → q ≤ x)

/-- Sample configuration for the poll-loop witnesses: auto checkpoints, no
paused polling, two records per fetch, reading from the trim horizon. -/
def cfgW : PollConfig :=
  { useAutoCheckpoints := true, usePausedPolling := false, limit := 2,
    noRecordsPollDelay := 1000, pollDelay := 250, startFromLatest := false }

/-- Freshly constructed consumer state (polling-consumer.js constructor). -/
def freshPollState : PollState :=
  { iter := none, checkpoint := none, seqNumToCheckpoint := none,
    written := [], stopped := false }

/-- Environment with a live lease and no iterator expiry. -/
def liveInput : PollInput :=
  { now := 0, leaseExpiration := 10, msBehind := 0, expireIter := false }

/-- Paused-polling configuration for the witness. -/
def cfgWP : PollConfig :=
  { useAutoCheckpoints := true, usePausedPolling := true, limit := 2,
    noRecordsPollDelay := 1000, pollDelay := 250, startFromLatest := false }


theorem lookupSlot_nil (k2 : String) : lookupSlot ([] : List (String × α)) k2 = none := rfl

theorem lookupSlot_cons (kv : String × α) (t : List (String × α)) (k2 : String) :
    lookupSlot (kv :: t) k2 = if kv.1 = k2 then some kv.2 else lookupSlot t k2 := by
  by_cases h : kv.1 = k2
  · simp [lookupSlot, List.find?_cons_of_pos, h]
  · simp only [lookupSlot, h, if_false]
    rw [List.find?_cons_of_neg]
    simp [h]

theorem lookupSlot_setSlot (m : List (String × α)) (k k2 : String) (v : α) :
    lookupSlot (setSlot m k v) k2 = if k2 = k then some v else lookupSlot m k2 := by
  induction m with
  | nil =>
    by_cases h : k2 = k
    · subst h
      simp [setSlot, lookupSlot_cons, lookupSlot_nil]
    · have h2 : ¬k = k2 := fun hh => h hh.symm
      simp [setSlot, lookupSlot_cons, lookupSlot_nil, h, h2]
  | cons kv t ih =>
    by_cases hk : kv.1 = k
    · subst hk
      by_cases h2 : k2 = kv.1
      · simp [setSlot, lookupSlot_cons, h2]
      · have h3 : ¬kv.1 = k2 := fun hh => h2 hh.symm
        simp [setSlot, lookupSlot_cons, h2, h3]
    · by_cases h2 : kv.1 = k2
      · have hne : ¬k2 = k := fun hh => hk (by rw [h2, hh])
        simp [setSlot, hk, lookupSlot_cons, h2, hne]
      · simp [setSlot, hk, lookupSlot_cons, h2, ih]

theorem shardAt_setShardsAt (st : StreamState) (p : ShardsPath)
    (m : List (String × ShardRecord)) (h : (getShardsAt st p).isSome)
    (p2 : ShardsPath) (sid : String) :
    shardAt (setShardsAt st p m) p2 sid =
      if p2 = p then lookupSlot m sid else shardAt st p2 sid := by
  cases p with
  | top =>
    cases p2 with
    | top => simp [shardAt, setShardsAt, getShardsAt]
    | consumer cid2 => simp [shardAt, setShardsAt, getShardsAt]
  | consumer cid =>
    simp only [getShardsAt, Option.isSome_iff_exists] at h
    obtain ⟨m0, hm0⟩ := h
    obtain ⟨r, hr, hrs⟩ : ∃ r, lookupSlot st.consumers cid = some r ∧ r.shards = some m0 := by
      cases hl : lookupSlot st.consumers cid with
      | none => rw [hl] at hm0; simp at hm0
      | some r => rw [hl] at hm0; exact ⟨r, rfl, by simpa using hm0⟩
    cases p2 with
    | top => simp [shardAt, setShardsAt, getShardsAt, hr]
    | consumer cid2 =>
      by_cases hc : cid2 = cid
      · subst hc
        simp [shardAt, setShardsAt, getShardsAt, hr, lookupSlot_setSlot]
      · have : ¬ShardsPath.consumer cid2 = ShardsPath.consumer cid := by
          simp [hc]
        simp [shardAt, setShardsAt, getShardsAt, hr, lookupSlot_setSlot, hc, this]

/-- C1: lockShardLease succeeds exactly when the slot's stored version equals
the expected version; on success it writes leaseOwner, leaseExpiration = now
plus the lease term, and the fresh version, returning true; on a version
mismatch (or a missing slot) it returns false leaving the document unchanged;
errors other than the conditional-check failure are rethrown; and two
sequential attempts supplying the same initial version yield at most one true
(given that the fresh version generated by the first differs from it). -/
theorem lockShardLease_spec (st : StreamState) (p : ShardsPath)
    (shardId consumerId : String) (now term fresh expect : Nat) :
    (∀ m r, getShardsAt st p = some m → lookupSlot m shardId = some r →
      (r.version = expect →
        lockShardLeaseDoc st p shardId consumerId now term fresh expect none =
          Except.ok (lockedState st p shardId consumerId now term fresh r m, true) ∧
        shardAt (lockedState st p shardId consumerId now term fresh r m) p shardId =
          some { r with
                 leaseOwner := some consumerId
                 leaseExpiration := some (now + term)
                 version := fresh } ∧
        (∀ p2 sid2, ¬(p2 = p ∧ sid2 = shardId) →
          shardAt (lockedState st p shardId consumerId now term fresh r m) p2 sid2 =
            shardAt st p2 sid2)) ∧
      (¬r.version = expect →
        lockShardLeaseDoc st p shardId consumerId now term fresh expect none =
          Except.ok (st, false))) ∧
    (shardAt st p shardId = none →
      lockShardLeaseDoc st p shardId consumerId now term fresh expect none =
        Except.ok (st, false)) ∧
    (∀ code, ¬code = condFail →
      lockShardLeaseDoc st p shardId consumerId now term fresh expect (some code) =
        Except.error code) ∧
    (¬fresh = expect →
      ∀ cid2 now2 term2 fresh2 st1 b1 st2 b2,
        lockShardLeaseDoc st p shardId consumerId now term fresh expect none =
          Except.ok (st1, b1) →
        lockShardLeaseDoc st1 p shardId cid2 now2 term2 fresh2 expect none =
          Except.ok (st2, b2) →
        ¬(b1 = true ∧ b2 = true)) := by
  refine ⟨?_, ?_, ?_, ?_⟩
  · intro m r hm hr
    constructor
    · intro hv
      have hsome : (getShardsAt st p).isSome := by rw [hm]; rfl
      refine ⟨by simp [lockShardLeaseDoc, lockedState, hm, hr, hv], ?_, ?_⟩
      · rw [lockedState, shardAt_setShardsAt st p _ hsome, if_pos rfl, lookupSlot_setSlot]
        simp
      · intro p2 sid2 hne
        rw [lockedState, shardAt_setShardsAt st p _ hsome]
        by_cases hp : p2 = p
        · subst hp
          have hs : ¬sid2 = shardId := fun hh => hne ⟨rfl, hh⟩
          rw [if_pos rfl, lookupSlot_setSlot, if_neg hs, shardAt, hm]
          simp
        · rw [if_neg hp]
    · intro hv
      simp [lockShardLeaseDoc, hm, hr, hv]
  · intro habs
    cases hm : getShardsAt st p with
    | none => simp [lockShardLeaseDoc, hm]
    | some m =>
      rw [shardAt, hm] at habs
      have habs2 : lookupSlot m shardId = none := habs
      simp [lockShardLeaseDoc, hm, habs2]
  · intro code hc
    simp [lockShardLeaseDoc, hc]
  · intro hfe cid2 now2 term2 fresh2 st1 b1 st2 b2 h1 h2
    rintro ⟨hb1, hb2⟩
    subst hb1; subst hb2
    cases hm : getShardsAt st p with
    | none => simp [lockShardLeaseDoc, hm] at h1
    | some m =>
      cases hr : lookupSlot m shardId with
      | none => simp [lockShardLeaseDoc, hm, hr] at h1
      | some r =>
        by_cases hv : r.version = expect
        · have hsome : (getShardsAt st p).isSome := by rw [hm]; rfl
          have h1e :
              lockShardLeaseDoc st p shardId consumerId now term fresh expect none =
                Except.ok (lockedState st p shardId consumerId now term fresh r m, true) := by
            simp [lockShardLeaseDoc, hm, hr, hv, lockedState]
          rw [h1e] at h1
          have hpair := Except.ok.inj h1
          have hst1 : st1 = lockedState st p shardId consumerId now term fresh r m :=
            (congrArg Prod.fst hpair).symm
          have hslot : shardAt st1 p shardId =
              some { r with
                     leaseOwner := some consumerId
                     leaseExpiration := some (now + term)
                     version := fresh } := by
            rw [hst1, lockedState, shardAt_setShardsAt st p _ hsome, if_pos rfl,
              lookupSlot_setSlot]
            simp
          cases hm1 : getShardsAt st1 p with
          | none => rw [shardAt, hm1] at hslot; simp at hslot
          | some m1 =>
            rw [shardAt, hm1] at hslot
            have hslot2 : lookupSlot m1 shardId =
                some { r with
                       leaseOwner := some consumerId
                       leaseExpiration := some (now + term)
                       version := fresh } := hslot
            simp [lockShardLeaseDoc, hm1, hslot2, hfe] at h2
        · simp [lockShardLeaseDoc, hm, hr, hv] at h1

theorem lockShardLease_spec_witness :
    lockShardLeaseDoc stW ShardsPath.top "shard-0" "cid-a" 100 200 7 3 none =
      Except.ok (lockedState stW ShardsPath.top "shard-0" "cid-a" 100 200 7 rW stW.shards,
        true) :=
  (((lockShardLease_spec stW ShardsPath.top "shard-0" "cid-a" 100 200 7 3).1
      stW.shards rW (by decide) (by decide)).1 (by decide)).1

/-- C8: releaseShardLease succeeds exactly when the slot's stored version equals
the expected version; on success it nulls leaseOwner and leaseExpiration, stores
the freshly generated version and returns that same version (so the returned
value equals the version now stored in the slot); on a version mismatch (or a
missing slot) it returns null leaving the document unchanged; errors other than
the conditional-check failure are rethrown. -/
theorem releaseShardLease_spec (st : StreamState) (p : ShardsPath)
    (shardId : String) (rel expect : Nat) :
    (∀ m r, getShardsAt st p = some m → lookupSlot m shardId = some r →
      (r.version = expect →
        releaseShardLeaseDoc st p shardId rel expect none =
          Except.ok (releasedState st p shardId rel r m, some rel) ∧
        shardAt (releasedState st p shardId rel r m) p shardId =
          some { r with leaseOwner := none, leaseExpiration := none, version := rel } ∧
        (∀ p2 sid2, ¬(p2 = p ∧ sid2 = shardId) →
          shardAt (releasedState st p shardId rel r m) p2 sid2 = shardAt st p2 sid2)) ∧
      (¬r.version = expect →
        releaseShardLeaseDoc st p shardId rel expect none = Except.ok (st, none))) ∧
    (shardAt st p shardId = none →
      releaseShardLeaseDoc st p shardId rel expect none = Except.ok (st, none)) ∧
    (∀ code, ¬code = condFail →
      releaseShardLeaseDoc st p shardId rel expect (some code) = Except.error code) := by
  refine ⟨?_, ?_, ?_⟩
  · intro m r hm hr
    constructor
    · intro hv
      have hsome : (getShardsAt st p).isSome := by rw [hm]; rfl
      refine ⟨by simp [releaseShardLeaseDoc, releasedState, hm, hr, hv], ?_, ?_⟩
      · rw [releasedState, shardAt_setShardsAt st p _ hsome, if_pos rfl, lookupSlot_setSlot]
        simp
      · intro p2 sid2 hne
        rw [releasedState, shardAt_setShardsAt st p _ hsome]
        by_cases hp : p2 = p
        · subst hp
          have hs : ¬sid2 = shardId := fun hh => hne ⟨rfl, hh⟩
          rw [if_pos rfl, lookupSlot_setSlot, if_neg hs, shardAt, hm]
          simp
        · rw [if_neg hp]
    · intro hv
      simp [releaseShardLeaseDoc, hm, hr, hv]
  · intro habs
    cases hm : getShardsAt st p with
    | none => simp [releaseShardLeaseDoc, hm]
    | some m =>
      rw [shardAt, hm] at habs
      have habs2 : lookupSlot m shardId = none := habs
      simp [releaseShardLeaseDoc, hm, habs2]
  · intro code hc
    simp [releaseShardLeaseDoc, hc]

theorem releaseShardLease_spec_witness :
    releaseShardLeaseDoc stW ShardsPath.top "shard-0" 9 3 none =
      Except.ok (releasedState stW ShardsPath.top "shard-0" 9 rW stW.shards, some 9) :=
  (((releaseShardLease_spec stW ShardsPath.top "shard-0" 9 3).1
      stW.shards rW (by decide) (by decide)).1 (by decide)).1

/-- C10: clearOldConsumers writes nothing when no registered consumer is stale,
returning the document bit-for-bit unchanged (version included) whatever the
service would have answered; and it mutates the document, removing exactly the
stale consumers and refreshing the version, only when at least one consumer is
stale. -/
theorem clearOldConsumers_spec (st : StreamState) (now timeout v : Nat) :
    (st.consumers.filter (isOldConsumer now timeout) = [] →
      ∀ fault, clearOldConsumersDoc st now timeout v fault = Except.ok st) ∧
    (∀ kv, kv ∈ st.consumers → isOldConsumer now timeout kv = true →
      clearOldConsumersDoc st now timeout v none =
        Except.ok
          { st with
            consumers := st.consumers.filter (fun kv2 => !isOldConsumer now timeout kv2),
            version := v }) ∧
    (∀ kv code, kv ∈ st.consumers → isOldConsumer now timeout kv = true →
      ¬code = condFail →
      clearOldConsumersDoc st now timeout v (some code) = Except.error code) := by
  refine ⟨?_, ?_, ?_⟩
  · intro hemp fault
    simp [clearOldConsumersDoc, hemp]
  · intro kv hmem hold
    have hne : st.consumers.filter (isOldConsumer now timeout) ≠ [] := by
      intro hemp
      have : kv ∈ st.consumers.filter (isOldConsumer now timeout) :=
        List.mem_filter.mpr ⟨hmem, hold⟩
      rw [hemp] at this
      exact absurd this (List.not_mem_nil kv)
    have hlen : ¬((st.consumers.filter (isOldConsumer now timeout)).map
        (fun kv => kv.1)).length = 0 := by
      simpa [List.length_eq_zero] using hne
    simp only [clearOldConsumersDoc]
    rw [if_neg hlen]
  · intro kv code hmem hold hcode
    have hne : st.consumers.filter (isOldConsumer now timeout) ≠ [] := by
      intro hemp
      have : kv ∈ st.consumers.filter (isOldConsumer now timeout) :=
        List.mem_filter.mpr ⟨hmem, hold⟩
      rw [hemp] at this
      exact absurd this (List.not_mem_nil kv)
    have hlen : ¬((st.consumers.filter (isOldConsumer now timeout)).map
        (fun kv => kv.1)).length = 0 := by
      simpa [List.length_eq_zero] using hne
    simp only [clearOldConsumersDoc]
    rw [if_neg hlen]
    simp [hcode]

theorem clearOldConsumers_spec_witness :
    clearOldConsumersDoc stWc 1500 600 4 none = Except.ok stWc :=
  (clearOldConsumers_spec stWc 1500 600 4).1 (by decide) none

theorem ensureAll_top (vEnsure : String → Nat) :
    ∀ (children : List (String × ShardData)) (st : StreamState),
    ∃ st1, ensureAll ShardsPath.top vEnsure children st = Except.ok st1 ∧
      st1.consumers = st.consumers ∧
      st1.streamCreatedOn = st.streamCreatedOn ∧
      st1.version = st.version ∧
      (∀ sid, (∀ kv ∈ children, ¬sid = kv.1) →
        lookupSlot st1.shards sid = lookupSlot st.shards sid) ∧
      (∀ sid, (lookupSlot st.shards sid).isSome → (lookupSlot st1.shards sid).isSome) ∧
      (∀ kv ∈ children, (lookupSlot st1.shards kv.1).isSome) := by
  intro children
  induction children with
  | nil =>
    intro st
    exact ⟨st, rfl, rfl, rfl, rfl, fun _ _ => rfl, fun _ h => h, by simp⟩
  | cons c cs ih =>
    intro st
    cases hc : lookupSlot st.shards c.1 with
    | some r0 =>
      obtain ⟨st1, heq, hcons, hcrea, hver, hfr, hpres, hmem⟩ := ih st
      refine ⟨st1, ?_, hcons, hcrea, hver, ?_, hpres, ?_⟩
      · simpa [ensureAll, ensureShardStateExistsDoc, getShardsAt, hc] using heq
      · intro sid hs
        exact hfr sid (fun kv hkv => hs kv (List.mem_cons_of_mem c hkv))
      · intro kv hkv
        rcases List.mem_cons.mp hkv with hkv | hkv
        · subst hkv
          exact hpres kv.1 (by rw [hc]; rfl)
        · exact hmem kv hkv
    | none =>
      set st' : StreamState :=
        { st with
          shards := setSlot st.shards c.1
            { parent := c.2.parent, checkpoint := none, depleted := false,
              leaseOwner := none, leaseExpiration := none,
              version := vEnsure c.1 } } with hst'
      obtain ⟨st1, heq, hcons, hcrea, hver, hfr, hpres, hmem⟩ := ih st'
      refine ⟨st1, ?_, by rw [hcons], by rw [hcrea], by rw [hver], ?_, ?_, ?_⟩
      · simpa [ensureAll, ensureShardStateExistsDoc, getShardsAt, setShardsAt, hc,
          hst'] using heq
      · intro sid hs
        have hne : ¬sid = c.1 := hs c (List.mem_cons_self c cs)
        rw [hfr sid (fun kv hkv => hs kv (List.mem_cons_of_mem c hkv)), hst']
        simp only [lookupSlot_setSlot, if_neg hne]
      · intro sid hsome
        refine hpres sid ?_
        rw [hst']
        simp only [lookupSlot_setSlot]
        by_cases hcc : sid = c.1
        · rw [if_pos hcc]; rfl
        · rw [if_neg hcc]; exact hsome
      · intro kv hkv
        rcases List.mem_cons.mp hkv with hkv | hkv
        · subst hkv
          refine hpres kv.1 ?_
          rw [hst']
          simp only [lookupSlot_setSlot, if_pos rfl]
          rfl
        · exact hmem kv hkv

theorem lookupSlot_applyChildCheckpoint_ne (vChild : String → Nat)
    (m : List (String × ShardRecord)) (c : String × ShardData) (sid : String)
    (h : ¬sid = c.1) :
    lookupSlot (applyChildCheckpoint vChild m c) sid = lookupSlot m sid := by
  cases hc : lookupSlot m c.1 with
  | none => simp [applyChildCheckpoint, hc]
  | some r => simp [applyChildCheckpoint, hc, lookupSlot_setSlot, h]

theorem childFold_frame (vChild : String → Nat) :
    ∀ (children : List (String × ShardData)) (m : List (String × ShardRecord))
      (sid : String), (∀ kv ∈ children, ¬sid = kv.1) →
    lookupSlot (children.foldl (applyChildCheckpoint vChild) m) sid = lookupSlot m sid := by
  intro children
  induction children with
  | nil => intro m sid _; rfl
  | cons c cs ih =>
    intro m sid hs
    rw [List.foldl_cons, ih _ sid (fun kv hkv => hs kv (List.mem_cons_of_mem c hkv)),
      lookupSlot_applyChildCheckpoint_ne vChild m c sid (hs c (List.mem_cons_self c cs))]

theorem childFold_sets (vChild : String → Nat) :
    ∀ (children : List (String × ShardData)) (m : List (String × ShardRecord)),
    (children.map Prod.fst).Nodup →
    ∀ kv ∈ children, (lookupSlot m kv.1).isSome →
    ∃ r, lookupSlot (children.foldl (applyChildCheckpoint vChild) m) kv.1 = some r ∧
      r.checkpoint = some kv.2.startingSequenceNumber ∧ r.version = vChild kv.1 := by
  intro children
  induction children with
  | nil => intro m _ kv hkv; exact absurd hkv (List.not_mem_nil kv)
  | cons c cs ih =>
    intro m hnd kv hkv hsome
    have hnotin : c.1 ∉ cs.map Prod.fst := (List.nodup_cons.mp hnd).1
    have hndcs : (cs.map Prod.fst).Nodup := (List.nodup_cons.mp hnd).2
    rcases List.mem_cons.mp hkv with hkv | hkv
    · subst hkv
      obtain ⟨r0, hr0⟩ := Option.isSome_iff_exists.mp hsome
      have hstep : lookupSlot (applyChildCheckpoint vChild m kv) kv.1 =
          some { r0 with checkpoint := some kv.2.startingSequenceNumber,
                         version := vChild kv.1 } := by
        simp [applyChildCheckpoint, hr0, lookupSlot_setSlot]
      rw [List.foldl_cons]
      refine ⟨{ r0 with checkpoint := some kv.2.startingSequenceNumber,
                        version := vChild kv.1 }, ?_, rfl, rfl⟩
      rw [childFold_frame vChild cs _ kv.1 ?_, hstep]
      intro kv2 hkv2 heq
      exact hnotin (heq ▸ List.mem_map_of_mem Prod.fst hkv2)
    · have hne : ¬kv.1 = c.1 := by
        intro heq
        exact hnotin (heq ▸ List.mem_map_of_mem Prod.fst hkv)
      rw [List.foldl_cons]
      refine ih _ hndcs kv hkv ?_
      rw [lookupSlot_applyChildCheckpoint_ne vChild m c kv.1 hne]
      exact hsome

theorem childrenOf_nodup (shardsData : List (String × ShardData)) (parentShardId : String)
    (h : (shardsData.map Prod.fst).Nodup) :
    ((childrenOf shardsData parentShardId).map Prod.fst).Nodup :=
  h.sublist ((List.filter_sublist shardsData).map Prod.fst)

/-- C2 (amended): markShardAsDepleted sets the parent shard record depleted
with the supplied fresh version; when the parent checkpoint is truthy
(non-null and non-empty) every shard of shardsData whose parent is the given
one has a record afterwards whose checkpoint is that child's starting sequence
number with a fresh version, all other slots and the rest of the document
being untouched; when the parent checkpoint is falsy (null or empty) no child
record is touched at all. Stated in auto-assignment mode; the hypotheses
encode that shardsData is a JS object (unique keys) and that no child is its
own parent. -/
theorem markShardAsDepleted_spec (st : StreamState)
    (shardsData : List (String × ShardData)) (parentShardId : String)
    (vParent : Nat) (vEnsure vChild : String → Nat) (pr : ShardRecord)
    (hpr : lookupSlot st.shards parentShardId = some pr)
    (hnodup : (shardsData.map Prod.fst).Nodup)
    (hnp : ∀ kv ∈ childrenOf shardsData parentShardId, ¬kv.1 = parentShardId) :
    (jsTruthyO pr.checkpoint = false →
      markShardAsDepletedDoc st ShardsPath.top shardsData parentShardId
          vParent vEnsure vChild none =
        Except.ok
          { st with
            shards :=
              setSlot st.shards parentShardId
                { pr with depleted := true, version := vParent } }) ∧
    (jsTruthyO pr.checkpoint = true →
      ∃ st2,
        markShardAsDepletedDoc st ShardsPath.top shardsData parentShardId
            vParent vEnsure vChild none = Except.ok st2 ∧
        shardAt st2 ShardsPath.top parentShardId =
          some { pr with depleted := true, version := vParent } ∧
        (∀ kv ∈ childrenOf shardsData parentShardId,
          ∃ r, shardAt st2 ShardsPath.top kv.1 = some r ∧
            r.checkpoint = some kv.2.startingSequenceNumber ∧
            r.version = vChild kv.1) ∧
        (∀ sid, ¬sid = parentShardId →
          (∀ kv ∈ childrenOf shardsData parentShardId, ¬sid = kv.1) →
          shardAt st2 ShardsPath.top sid = shardAt st ShardsPath.top sid) ∧
        st2.consumers = st.consumers ∧ st2.version = st.version) := by
  constructor
  · intro hfa
    simp [markShardAsDepletedDoc, hpr, hfa, ensureAll, depletedUpdate, getShardsAt,
      setShardsAt]
  · intro htr
    obtain ⟨st1, heq, hcons, hcrea, hver, hfr, hpres, hmem⟩ :=
      ensureAll_top vEnsure (childrenOf shardsData parentShardId) st
    have hpr1 : lookupSlot st1.shards parentShardId = some pr := by
      rw [hfr parentShardId (fun kv hkv hh => hnp kv hkv hh.symm), hpr]
    have hall : (childrenOf shardsData parentShardId).all
        (fun c => (lookupSlot st1.shards c.1).isSome) = true :=
      List.all_eq_true.mpr (fun kv hkv => hmem kv hkv)
    have hupd : depletedUpdate st1.shards parentShardId vParent
        (childrenOf shardsData parentShardId) vChild =
        some ((childrenOf shardsData parentShardId).foldl (applyChildCheckpoint vChild)
          (setSlot st1.shards parentShardId
            { pr with depleted := true, version := vParent })) := by
      simp [depletedUpdate, hpr1, hall]
    refine ⟨setShardsAt st1 ShardsPath.top
        ((childrenOf shardsData parentShardId).foldl (applyChildCheckpoint vChild)
          (setSlot st1.shards parentShardId
            { pr with depleted := true, version := vParent })),
      ?_, ?_, ?_, ?_, ?_, ?_⟩
    · simp only [markShardAsDepletedDoc, hpr, htr, if_true, heq, hupd, getShardsAt]
    · show lookupSlot ((childrenOf shardsData parentShardId).foldl
          (applyChildCheckpoint vChild)
          (setSlot st1.shards parentShardId
            { pr with depleted := true, version := vParent })) parentShardId = _
      rw [childFold_frame vChild _ _ parentShardId
        (fun kv hkv hh => hnp kv hkv hh.symm), lookupSlot_setSlot, if_pos rfl]
    · intro kv hkv
      have hne : ¬kv.1 = parentShardId := hnp kv hkv
      have hsome : (lookupSlot (setSlot st1.shards parentShardId
          { pr with depleted := true, version := vParent }) kv.1).isSome := by
        rw [lookupSlot_setSlot, if_neg hne]
        exact hmem kv hkv
      obtain ⟨r, hr, hcp, hv⟩ := childFold_sets vChild _ _
        (childrenOf_nodup shardsData parentShardId hnodup) kv hkv hsome
      exact ⟨r, hr, hcp, hv⟩
    · intro sid hsp hsch
      show lookupSlot ((childrenOf shardsData parentShardId).foldl
          (applyChildCheckpoint vChild)
          (setSlot st1.shards parentShardId
            { pr with depleted := true, version := vParent })) sid = _
      rw [childFold_frame vChild _ _ sid hsch, lookupSlot_setSlot, if_neg hsp,
        hfr sid hsch]
      rfl
    · show st1.consumers = st.consumers
      exact hcons
    · show st1.version = st.version
      exact hver

/-- C2 counterexample: the parent checkpoint is non-null (the empty string),
the shards data contain a child of the parent, yet markShardAsDepleted leaves
the child without any record (no slot is created and no checkpoint is seeded),
contradicting the claim that a non-null parent checkpoint makes every child
record exist with its checkpoint set. -/
theorem markShardAsDepleted_cex :
    ¬prCex.checkpoint = none ∧
    ("shard-c", ({ parent := some "shard-p", startingSequenceNumber := "50" } : ShardData))
      ∈ sdCex ∧
    markShardAsDepletedDoc stCex ShardsPath.top sdCex "shard-p" 9
        (fun _ => 8) (fun _ => 7) none =
      Except.ok
        { stCex with
          shards := [("shard-p", { prCex with depleted := true, version := 9 })] } ∧
    shardAt
      { stCex with shards := [("shard-p", { prCex with depleted := true, version := 9 })] }
      ShardsPath.top "shard-c" = none :=
  ⟨by decide, by decide, by rfl, by decide⟩

theorem mapDPS_refl (m : List (String × ShardRecord)) : mapDPS m m :=
  fun _ r h hd => ⟨r, h, hd⟩

theorem docDPS_refl (st : StreamState) : docDPS st st :=
  fun _ _ r h hd => ⟨r, h, hd⟩

theorem docDPS_trans {st st1 st2 : StreamState} (h1 : docDPS st st1)
    (h2 : docDPS st1 st2) : docDPS st st2 := by
  intro p sid r hr hd
  obtain ⟨r1, hr1, hd1⟩ := h1 p sid r hr hd
  exact h2 p sid r1 hr1 hd1

theorem mapDPS_setSlot_absent (m : List (String × ShardRecord)) (k : String)
    (v : ShardRecord) (h : lookupSlot m k = none) : mapDPS m (setSlot m k v) := by
  intro sid r hr hd
  refine ⟨r, ?_, hd⟩
  rw [lookupSlot_setSlot]
  by_cases hk : sid = k
  · rw [hk] at hr; rw [h] at hr; exact absurd hr (by simp)
  · rw [if_neg hk]; exact hr

theorem mapDPS_setSlot_update (m : List (String × ShardRecord)) (k : String)
    (r0 v : ShardRecord) (h : lookupSlot m k = some r0)
    (hdep : r0.depleted = true → v.depleted = true) : mapDPS m (setSlot m k v) := by
  intro sid r hr hd
  by_cases hk : sid = k
  · subst hk
    rw [h] at hr
    have hr0 : r0 = r := Option.some.inj hr
    refine ⟨v, ?_, hdep (by rw [hr0]; exact hd)⟩
    rw [lookupSlot_setSlot, if_pos rfl]
  · exact ⟨r, by rw [lookupSlot_setSlot, if_neg hk]; exact hr, hd⟩

theorem mapDPS_trans {m m1 m2 : List (String × ShardRecord)}
    (h1 : mapDPS m m1) (h2 : mapDPS m1 m2) : mapDPS m m2 := by
  intro sid r hr hd
  obtain ⟨r1, hr1, hd1⟩ := h1 sid r hr hd
  exact h2 sid r1 hr1 hd1

theorem mapDPS_applyChildCheckpoint (vChild : String → Nat)
    (m : List (String × ShardRecord)) (c : String × ShardData) :
    mapDPS m (applyChildCheckpoint vChild m c) := by
  cases hc : lookupSlot m c.1 with
  | none => simpa [applyChildCheckpoint, hc] using mapDPS_refl m
  | some r =>
    simp only [applyChildCheckpoint, hc]
    exact mapDPS_setSlot_update m c.1 r _ hc (fun h => h)

theorem mapDPS_childFold (vChild : String → Nat)
    (children : List (String × ShardData)) :
    ∀ m, mapDPS m (children.foldl (applyChildCheckpoint vChild) m) := by
  induction children with
  | nil => intro m; exact mapDPS_refl m
  | cons c cs ih =>
    intro m
    rw [List.foldl_cons]
    exact mapDPS_trans (mapDPS_applyChildCheckpoint vChild m c) (ih _)

theorem docDPS_setShardsAt (st : StreamState) (p : ShardsPath)
    (m m2 : List (String × ShardRecord)) (hm : getShardsAt st p = some m)
    (h : mapDPS m m2) : docDPS st (setShardsAt st p m2) := by
  intro p2 sid r hr hd
  have hsome : (getShardsAt st p).isSome := by rw [hm]; rfl
  by_cases hp : p2 = p
  · subst hp
    rw [shardAt, hm] at hr
    obtain ⟨r2, hr2, hd2⟩ := h sid r hr hd
    refine ⟨r2, ?_, hd2⟩
    rw [shardAt_setShardsAt st p2 m2 hsome, if_pos rfl]
    exact hr2
  · refine ⟨r, ?_, hd⟩
    rw [shardAt_setShardsAt st p m2 hsome, if_neg hp]
    exact hr

theorem ensureDoc_docDPS (st : StreamState) (p : ShardsPath) (sid : String)
    (par : Option String) (v : Nat) (fa : Option String) (st2 : StreamState)
    (h : ensureShardStateExistsDoc st p sid par v fa = Except.ok st2) :
    docDPS st st2 := by
  cases fa with
  | some code =>
    by_cases hc : code = condFail
    · have h2 : st = st2 := by
        simpa [ensureShardStateExistsDoc, hc] using h
      rw [← h2]; exact docDPS_refl st
    · simp [ensureShardStateExistsDoc, hc] at h
  | none =>
    cases hm : getShardsAt st p with
    | none => simp [ensureShardStateExistsDoc, hm] at h
    | some m =>
      cases hl : lookupSlot m sid with
      | some r =>
        have h2 : st = st2 := by
          simpa [ensureShardStateExistsDoc, hm, hl] using h
        rw [← h2]; exact docDPS_refl st
      | none =>
        have h2 : setShardsAt st p (setSlot m sid
            { parent := par, checkpoint := none, depleted := false,
              leaseOwner := none, leaseExpiration := none, version := v }) = st2 := by
          simpa [ensureShardStateExistsDoc, hm, hl] using h
        rw [← h2]
        exact docDPS_setShardsAt st p m _ hm (mapDPS_setSlot_absent m sid _ hl)

theorem lockDoc_docDPS (st : StreamState) (p : ShardsPath) (sid cid : String)
    (now term v ex : Nat) (fa : Option String) (st2 : StreamState) (b : Bool)
    (h : lockShardLeaseDoc st p sid cid now term v ex fa = Except.ok (st2, b)) :
    docDPS st st2 := by
  cases fa with
  | some code =>
    by_cases hc : code = condFail
    · simp only [lockShardLeaseDoc, hc, if_pos, Except.ok.injEq, Prod.mk.injEq] at h
      rw [← h.1]; exact docDPS_refl st
    · simp [lockShardLeaseDoc, hc] at h
  | none =>
    cases hm : getShardsAt st p with
    | none =>
      simp only [lockShardLeaseDoc, hm, Except.ok.injEq, Prod.mk.injEq] at h
      rw [← h.1]; exact docDPS_refl st
    | some m =>
      cases hl : lookupSlot m sid with
      | none =>
        simp only [lockShardLeaseDoc, hm, hl, Except.ok.injEq, Prod.mk.injEq] at h
        rw [← h.1]; exact docDPS_refl st
      | some r =>
        by_cases hv : r.version = ex
        · simp only [lockShardLeaseDoc, hm, hl, hv, if_pos, Except.ok.injEq,
            Prod.mk.injEq] at h
          rw [← h.1]
          exact docDPS_setShardsAt st p m _ hm
            (mapDPS_setSlot_update m sid r _ hl (fun hh => hh))
        · simp only [lockShardLeaseDoc, hm, hl, hv, if_neg, if_false,
            Except.ok.injEq, Prod.mk.injEq] at h
          rw [← h.1]; exact docDPS_refl st

theorem releaseDoc_docDPS (st : StreamState) (p : ShardsPath) (sid : String)
    (v ex : Nat) (fa : Option String) (st2 : StreamState) (b : Option Nat)
    (h : releaseShardLeaseDoc st p sid v ex fa = Except.ok (st2, b)) :
    docDPS st st2 := by
  cases fa with
  | some code =>
    by_cases hc : code = condFail
    · simp only [releaseShardLeaseDoc, hc, if_pos, Except.ok.injEq, Prod.mk.injEq] at h
      rw [← h.1]; exact docDPS_refl st
    · simp [releaseShardLeaseDoc, hc] at h
  | none =>
    cases hm : getShardsAt st p with
    | none =>
      simp only [releaseShardLeaseDoc, hm, Except.ok.injEq, Prod.mk.injEq] at h
      rw [← h.1]; exact docDPS_refl st
    | some m =>
      cases hl : lookupSlot m sid with
      | none =>
        simp only [releaseShardLeaseDoc, hm, hl, Except.ok.injEq, Prod.mk.injEq] at h
        rw [← h.1]; exact docDPS_refl st
      | some r =>
        by_cases hv : r.version = ex
        · simp only [releaseShardLeaseDoc, hm, hl, hv, if_pos, Except.ok.injEq,
            Prod.mk.injEq] at h
          rw [← h.1]
          exact docDPS_setShardsAt st p m _ hm
            (mapDPS_setSlot_update m sid r _ hl (fun hh => hh))
        · simp only [releaseShardLeaseDoc, hm, hl, hv, if_neg, if_false,
            Except.ok.injEq, Prod.mk.injEq] at h
          rw [← h.1]; exact docDPS_refl st

theorem checkpointDoc_docDPS (st : StreamState) (p : ShardsPath) (sid cp : String)
    (v : Nat) (fa : Option String) (st2 : StreamState)
    (h : storeShardCheckpointDoc st p sid cp v fa = Except.ok st2) :
    docDPS st st2 := by
  cases fa with
  | some code => simp [storeShardCheckpointDoc] at h
  | none =>
    cases hm : getShardsAt st p with
    | none => simp [storeShardCheckpointDoc, hm] at h
    | some m =>
      cases hl : lookupSlot m sid with
      | none => simp [storeShardCheckpointDoc, hm, hl] at h
      | some r =>
        have h2 : setShardsAt st p (setSlot m sid
            { r with checkpoint := some cp, version := v }) = st2 := by
          simpa [storeShardCheckpointDoc, hm, hl] using h
        rw [← h2]
        exact docDPS_setShardsAt st p m _ hm
          (mapDPS_setSlot_update m sid r _ hl (fun hh => hh))

theorem docDPS_ensureAll (p : ShardsPath) (vEnsure : String → Nat) :
    ∀ (children : List (String × ShardData)) (st st1 : StreamState),
    ensureAll p vEnsure children st = Except.ok st1 → docDPS st st1 := by
  intro children
  induction children with
  | nil =>
    intro st st1 h
    have h2 : st = st1 := Except.ok.inj h
    rw [← h2]; exact docDPS_refl st
  | cons c cs ih =>
    intro st st1 h
    cases he : ensureShardStateExistsDoc st p c.1 c.2.parent (vEnsure c.1) none with
    | error e => simp [ensureAll, he] at h
    | ok stm =>
      simp only [ensureAll, he] at h
      exact docDPS_trans (ensureDoc_docDPS st p c.1 c.2.parent (vEnsure c.1) none stm he)
        (ih stm st1 h)

theorem depleteDoc_docDPS (st : StreamState) (p : ShardsPath)
    (sd : List (String × ShardData)) (psid : String) (vp : Nat)
    (ve vc : String → Nat) (fa : Option String) (st2 : StreamState)
    (h : markShardAsDepletedDoc st p sd psid vp ve vc fa = Except.ok st2) :
    docDPS st st2 := by
  cases hpr : lookupSlot st.shards psid with
  | none => simp [markShardAsDepletedDoc, hpr] at h
  | some pr =>
    simp only [markShardAsDepletedDoc, hpr] at h
    cases hea : ensureAll p ve
        (if jsTruthyO pr.checkpoint then childrenOf sd psid else []) st with
    | error e => rw [hea] at h; exact absurd h (by simp)
    | ok st1 =>
      simp only [hea] at h
      have hd1 : docDPS st st1 := docDPS_ensureAll p ve _ st st1 hea
      cases fa with
      | some code => simp at h
      | none =>
        cases hm : getShardsAt st1 p with
        | none => simp only [hm] at h; simp at h
        | some m =>
          simp only [hm] at h
          cases hdu : depletedUpdate m psid vp
              (if jsTruthyO pr.checkpoint then childrenOf sd psid else []) vc with
          | none => simp only [hdu] at h; simp at h
          | some m2 =>
            simp only [hdu] at h
            have h2 : setShardsAt st1 p m2 = st2 := Except.ok.inj h
            refine docDPS_trans hd1 ?_
            rw [← h2]
            refine docDPS_setShardsAt st1 p m m2 hm ?_
            rw [depletedUpdate] at hdu
            cases hpr2 : lookupSlot m psid with
            | none => simp only [hpr2] at hdu; simp at hdu
            | some pr2 =>
              simp only [hpr2] at hdu
              by_cases hall : (if jsTruthyO pr.checkpoint then childrenOf sd psid
                  else []).all (fun c => (lookupSlot m c.1).isSome) = true
              · rw [if_pos hall] at hdu
                have hm2 := Option.some.inj hdu
                rw [← hm2]
                exact mapDPS_trans
                  (mapDPS_setSlot_update m psid pr2 _ hpr2 (fun _ => rfl))
                  (mapDPS_childFold vc _ _)
              · rw [if_neg hall] at hdu
                simp at hdu

theorem docDPS_setHeartbeat (st : StreamState) (cid : String) (r : ConsumerRecord)
    (hb : Nat) (h : lookupSlot st.consumers cid = some r) :
    docDPS st
      { st with consumers := setSlot st.consumers cid { r with heartbeat := hb } } := by
  intro p2 sid rr hrr hd
  refine ⟨rr, ?_, hd⟩
  cases p2 with
  | top => exact hrr
  | consumer cid2 =>
    rw [shardAt, getShardsAt] at hrr ⊢
    simp only [lookupSlot_setSlot]
    by_cases hc : cid2 = cid
    · subst hc
      rw [h] at hrr
      rw [if_pos rfl]
      exact hrr
    · rw [if_neg hc]
      exact hrr

theorem docDPS_createConsumer (st : StreamState) (cid : String) (rec : ConsumerRecord)
    (h : lookupSlot st.consumers cid = none) :
    docDPS st { st with consumers := setSlot st.consumers cid rec } := by
  intro p2 sid rr hrr hd
  refine ⟨rr, ?_, hd⟩
  cases p2 with
  | top => exact hrr
  | consumer cid2 =>
    rw [shardAt, getShardsAt] at hrr ⊢
    simp only [lookupSlot_setSlot]
    by_cases hc : cid2 = cid
    · subst hc
      rw [h] at hrr
      exact absurd hrr (by simp)
    · rw [if_neg hc]
      exact hrr

theorem registerDoc_docDPS (st : StreamState) (cid : String) (hb : Nat)
    (an ho so : String) (pid : Nat) (isS : Bool) (fa1 fa2 : Option String)
    (st2 : StreamState)
    (h : registerConsumerDoc st cid hb an ho so pid isS fa1 fa2 = Except.ok st2) :
    docDPS st st2 := by
  cases fa1 with
  | some code =>
    by_cases hc : code = condFail
    · cases fa2 with
      | some code2 =>
        simp only [registerConsumerDoc, hc, if_pos, Except.ok.injEq] at h
        rw [← h]; exact docDPS_refl st
      | none =>
        cases hl : lookupSlot st.consumers cid with
        | some r =>
          simp only [registerConsumerDoc, hc, hl, if_pos, Except.ok.injEq] at h
          rw [← h]
          exact docDPS_setHeartbeat st cid r hb hl
        | none =>
          simp only [registerConsumerDoc, hc, hl, if_pos, Except.ok.injEq] at h
          rw [← h]; exact docDPS_refl st
    · simp [registerConsumerDoc, hc] at h
  | none =>
    cases hl : lookupSlot st.consumers cid with
    | some r =>
      cases fa2 with
      | some code2 =>
        simp only [registerConsumerDoc, hl, Except.ok.injEq] at h
        rw [← h]; exact docDPS_refl st
      | none =>
        simp only [registerConsumerDoc, hl, Except.ok.injEq] at h
        rw [← h]
        exact docDPS_setHeartbeat st cid r hb hl
    | none =>
      simp only [registerConsumerDoc, hl, Except.ok.injEq] at h
      rw [← h]
      exact docDPS_createConsumer st cid _ hl

theorem docDPS_docDPW {st st2 : StreamState} (h : docDPS st st2) : docDPW st st2 := by
  intro p sid r r2 hr hd hr2
  obtain ⟨r2x, hr2x, hd2⟩ := h p sid r hr hd
  rw [hr2] at hr2x
  rw [Option.some.inj hr2x]
  exact hd2

theorem lookupSlot_some_key_mem (l : List (String × α)) (k : String) (v : α)
    (h : lookupSlot l k = some v) : k ∈ l.map Prod.fst := by
  induction l with
  | nil => rw [lookupSlot_nil] at h; exact absurd h (by simp)
  | cons kv t ih =>
    rw [lookupSlot_cons] at h
    by_cases hc : kv.1 = k
    · rw [List.map_cons]; rw [← hc]; exact List.mem_cons_self kv.1 (t.map Prod.fst)
    · rw [if_neg hc] at h
      exact List.mem_cons_of_mem kv.1 (ih h)

theorem lookupSlot_filter_of_nodup (f : String × α → Bool) (l : List (String × α))
    (hnd : (l.map Prod.fst).Nodup) (k : String) (v : α)
    (h : lookupSlot (l.filter f) k = some v) : lookupSlot l k = some v := by
  induction l with
  | nil => simpa using h
  | cons kv t ih =>
    have hnotin : kv.1 ∉ t.map Prod.fst := by
      rw [List.map_cons] at hnd
      exact (List.nodup_cons.mp hnd).1
    have hndt : (t.map Prod.fst).Nodup := by
      rw [List.map_cons] at hnd
      exact (List.nodup_cons.mp hnd).2
    rw [List.filter_cons] at h
    by_cases hf : f kv
    · rw [if_pos hf, lookupSlot_cons] at h
      rw [lookupSlot_cons]
      by_cases hc : kv.1 = k
      · rw [if_pos hc] at h ⊢; exact h
      · rw [if_neg hc] at h ⊢; exact ih hndt h
    · rw [if_neg (by simpa using hf)] at h
      have ht := ih hndt h
      rw [lookupSlot_cons]
      by_cases hc : kv.1 = k
      · exact absurd (hc ▸ lookupSlot_some_key_mem t k v ht) hnotin
      · rw [if_neg hc]; exact ht

theorem clearOldDoc_docDPW (st : StreamState)
    (hnc : (st.consumers.map Prod.fst).Nodup) (now tmo v : Nat) (fa : Option String)
    (st2 : StreamState) (h : clearOldConsumersDoc st now tmo v fa = Except.ok st2) :
    docDPW st st2 := by
  simp only [clearOldConsumersDoc] at h
  by_cases hlen : ((st.consumers.filter (isOldConsumer now tmo)).map
      (fun kv => kv.1)).length = 0
  · rw [if_pos hlen] at h
    have h2 : st = st2 := Except.ok.inj h
    rw [← h2]
    exact docDPS_docDPW (docDPS_refl st)
  · rw [if_neg hlen] at h
    have hmain : ∀ st3 : StreamState,
        { st with
          consumers := st.consumers.filter (fun kv => !isOldConsumer now tmo kv),
          version := v } = st3 → docDPW st st3 := by
      intro st3 hh
      intro p sid r r2 hr hd hr2
      rw [← hh] at hr2
      cases p with
      | top =>
        have hr2b : lookupSlot st.shards sid = some r2 := hr2
        have hrb : lookupSlot st.shards sid = some r := hr
        rw [hrb] at hr2b
        rw [← Option.some.inj hr2b]
        exact hd
      | consumer cid =>
        simp only [shardAt, getShardsAt] at hr hr2
        cases hl2 : lookupSlot
            (st.consumers.filter (fun kv => !isOldConsumer now tmo kv)) cid with
        | none => rw [hl2] at hr2; simp at hr2
        | some c =>
          rw [hl2] at hr2
          have hl1 : lookupSlot st.consumers cid = some c :=
            lookupSlot_filter_of_nodup _ st.consumers hnc cid c hl2
          rw [hl1] at hr
          rw [hr] at hr2
          rw [← Option.some.inj hr2]
          exact hd
    cases fa with
    | some code =>
      by_cases hc : code = condFail
      · subst hc
        simp only [if_pos, Except.ok.injEq] at h
        rw [← h]
        exact docDPS_docDPW (docDPS_refl st)
      · simp [hc] at h
    | none =>
      exact hmain st2 (Except.ok.inj h)

/-- C3: depletion is terminal. Whatever State Store operation runs next
(ensureShardStateExists, lockShardLease, releaseShardLease,
storeShardCheckpoint, markShardAsDepleted, registerConsumer or
clearOldConsumers, at any path, with any arguments, fresh versions or service
fault), a shard slot that was depleted before and still exists afterwards is
still depleted; and ensureShardStateExists writes nothing at all when the slot
already exists (its fresh not-depleted record is only written when the slot is
absent). The consumers map is assumed to have unique keys, as DynamoDB maps do. -/
theorem depletion_terminal (st : StreamState)
    (hnc : (st.consumers.map Prod.fst).Nodup) :
    (∀ op p sid r r2, shardAt st p sid = some r → r.depleted = true →
      shardAt (applyStoreOp st op) p sid = some r2 → r2.depleted = true) ∧
    (∀ p sid par v m, getShardsAt st p = some m → (lookupSlot m sid).isSome →
      ensureShardStateExistsDoc st p sid par v none = Except.ok st) := by
  constructor
  · intro op
    have hW : docDPW st (applyStoreOp st op) := by
      cases op with
      | ensure p sid par v fa =>
        cases hres : ensureShardStateExistsDoc st p sid par v fa with
        | error e =>
          simp only [applyStoreOp, hres]
          exact docDPS_docDPW (docDPS_refl st)
        | ok st2 =>
          simp only [applyStoreOp, hres]
          exact docDPS_docDPW (ensureDoc_docDPS st p sid par v fa st2 hres)
      | lock p sid cid now term v ex fa =>
        cases hres : lockShardLeaseDoc st p sid cid now term v ex fa with
        | error e =>
          simp only [applyStoreOp, hres]
          exact docDPS_docDPW (docDPS_refl st)
        | ok pr =>
          simp only [applyStoreOp, hres]
          exact docDPS_docDPW
            (lockDoc_docDPS st p sid cid now term v ex fa pr.1 pr.2
              (by rw [hres]))
      | release p sid v ex fa =>
        cases hres : releaseShardLeaseDoc st p sid v ex fa with
        | error e =>
          simp only [applyStoreOp, hres]
          exact docDPS_docDPW (docDPS_refl st)
        | ok pr =>
          simp only [applyStoreOp, hres]
          exact docDPS_docDPW
            (releaseDoc_docDPS st p sid v ex fa pr.1 pr.2 (by rw [hres]))
      | checkpoint p sid cp v fa =>
        cases hres : storeShardCheckpointDoc st p sid cp v fa with
        | error e =>
          simp only [applyStoreOp, hres]
          exact docDPS_docDPW (docDPS_refl st)
        | ok st2 =>
          simp only [applyStoreOp, hres]
          exact docDPS_docDPW (checkpointDoc_docDPS st p sid cp v fa st2 hres)
      | deplete p sd psid vp ve vc fa =>
        cases hres : markShardAsDepletedDoc st p sd psid vp ve vc fa with
        | error e =>
          simp only [applyStoreOp, hres]
          exact docDPS_docDPW (docDPS_refl st)
        | ok st2 =>
          simp only [applyStoreOp, hres]
          exact docDPS_docDPW (depleteDoc_docDPS st p sd psid vp ve vc fa st2 hres)
      | register cid hb an ho so pid isS fa1 fa2 =>
        cases hres : registerConsumerDoc st cid hb an ho so pid isS fa1 fa2 with
        | error e =>
          simp only [applyStoreOp, hres]
          exact docDPS_docDPW (docDPS_refl st)
        | ok st2 =>
          simp only [applyStoreOp, hres]
          exact docDPS_docDPW
            (registerDoc_docDPS st cid hb an ho so pid isS fa1 fa2 st2 hres)
      | clearOld now tmo v fa =>
        cases hres : clearOldConsumersDoc st now tmo v fa with
        | error e =>
          simp only [applyStoreOp, hres]
          exact docDPS_docDPW (docDPS_refl st)
        | ok st2 =>
          simp only [applyStoreOp, hres]
          exact clearOldDoc_docDPW st hnc now tmo v fa st2 hres
    exact fun p sid r r2 hr hd hr2 => hW p sid r r2 hr hd hr2
  · intro p sid par v m hm hsome
    obtain ⟨r, hr⟩ := Option.isSome_iff_exists.mp hsome
    simp [ensureShardStateExistsDoc, hm, hr]

/-- C7: when a truthy checkpoint sequence number is supplied the first request
is AFTER_SEQUENCE_NUMBER at that sequence; if that request fails with
InvalidArgumentException exactly one more request is issued, without the
sequence number and with the initialPositionInStream type, and its answer is
returned; any other error of the first request propagates with no further
request; and without a sequence number the single request uses the
initial-position type and every error (InvalidArgumentException included)
propagates. -/
theorem getShardIterator_spec (svc : GetIterParams → Except String String)
    (streamName shardId ipis : String) (seq : Option String) :
    (jsTruthyO seq = true →
      (∀ it, svc (afterSeqParams streamName shardId seq) = Except.ok it →
        getShardIterator svc streamName shardId ipis seq =
          (Except.ok it, [afterSeqParams streamName shardId seq])) ∧
      (∀ e, svc (afterSeqParams streamName shardId seq) = Except.error e →
        e = "InvalidArgumentException" →
        getShardIterator svc streamName shardId ipis seq =
          (svc (initPosParams streamName shardId ipis),
           [afterSeqParams streamName shardId seq,
            initPosParams streamName shardId ipis])) ∧
      (∀ e, svc (afterSeqParams streamName shardId seq) = Except.error e →
        ¬e = "InvalidArgumentException" →
        getShardIterator svc streamName shardId ipis seq =
          (Except.error e, [afterSeqParams streamName shardId seq]))) ∧
    (jsTruthyO seq = false →
      getShardIterator svc streamName shardId ipis seq =
        (svc (initPosParams streamName shardId ipis),
         [initPosParams streamName shardId ipis])) := by
  constructor
  · intro htr
    have hparams :
        ({ ShardId := shardId
           ShardIteratorType :=
             if jsTruthyO seq then "AFTER_SEQUENCE_NUMBER" else ipis
           StreamName := streamName
           StartingSequenceNumber :=
             if jsTruthyO seq then seq else none } : GetIterParams) =
          afterSeqParams streamName shardId seq := by
      rw [afterSeqParams]
      simp [htr]
    refine ⟨?_, ?_, ?_⟩
    · intro it hok
      simp only [getShardIterator, hparams, hok]
    · intro e herr he
      simp only [getShardIterator, hparams, herr]
      rw [if_pos ⟨he, htr⟩]
    · intro e herr hne
      simp only [getShardIterator, hparams, herr]
      rw [if_neg (fun hh => hne hh.1)]
  · intro hfa
    have hparams :
        ({ ShardId := shardId
           ShardIteratorType :=
             if jsTruthyO seq then "AFTER_SEQUENCE_NUMBER" else ipis
           StreamName := streamName
           StartingSequenceNumber :=
             if jsTruthyO seq then seq else none } : GetIterParams) =
          initPosParams streamName shardId ipis := by
      rw [initPosParams]
      simp [hfa]
    cases hres : svc (initPosParams streamName shardId ipis) with
    | ok it => simp only [getShardIterator, hparams, hres]
    | error e =>
      simp only [getShardIterator, hparams, hres]
      rw [if_neg (fun hh => by rw [hfa] at hh; exact Bool.false_ne_true hh.2)]

theorem getShardIterator_spec_witness :
    getShardIterator svcW "stream-w" "shard-w" "LATEST" (some "5") =
      (svcW (initPosParams "stream-w" "shard-w" "LATEST"),
       [afterSeqParams "stream-w" "shard-w" (some "5"),
        initPosParams "stream-w" "shard-w" "LATEST"]) :=
  (((getShardIterator_spec svcW "stream-w" "shard-w" "LATEST" (some "5")).1
      (by decide)).2.1 "InvalidArgumentException" (by rfl) rfl)

theorem depletion_terminal_witness :
    ({ rD with checkpoint := some "555", version := 9 } : ShardRecord).depleted = true :=
  (depletion_terminal stD (by decide)).1
    (StoreOp.checkpoint ShardsPath.top "sd" "555" 9 none)
    ShardsPath.top "sd" rD { rD with checkpoint := some "555", version := 9 }
    (by decide) (by decide) (by decide)

theorem mem_keys_setSlot (m : List (String × α)) (k x : String) (v : α) :
    x ∈ (setSlot m k v).map Prod.fst ↔ x ∈ m.map Prod.fst ∨ x = k := by
  induction m with
  | nil => simp [setSlot]
  | cons kv t ih =>
    by_cases hk : kv.1 = k
    · subst hk
      simp only [setSlot, if_pos, List.map_cons, List.mem_cons]
      tauto
    · simp only [setSlot, if_neg hk, List.map_cons, List.mem_cons, ih]
      tauto

theorem nodup_keys_setSlot (m : List (String × α)) (k : String) (v : α)
    (h : (m.map Prod.fst).Nodup) : ((setSlot m k v).map Prod.fst).Nodup := by
  induction m with
  | nil => simp [setSlot]
  | cons kv t ih =>
    rw [List.map_cons, List.nodup_cons] at h
    by_cases hk : kv.1 = k
    · subst hk
      simp only [setSlot, if_pos, List.map_cons, List.nodup_cons]
      exact h
    · simp only [setSlot, if_neg hk, List.map_cons, List.nodup_cons]
      refine ⟨?_, ih h.2⟩
      rw [mem_keys_setSlot]
      rintro (hh | hh)
      · exact h.1 hh
      · exact hk hh

theorem nodup_keys_fromEntries (l : List (String × α)) :
    ((fromEntries l).map Prod.fst).Nodup := by
  have hgen : ∀ (l2 : List (String × α)) (m : List (String × α)),
      (m.map Prod.fst).Nodup →
      ((l2.foldl (fun m kv => setSlot m kv.1 kv.2) m).map Prod.fst).Nodup := by
    intro l2
    induction l2 with
    | nil => intro m h; exact h
    | cons kv t ih =>
      intro m h
      rw [List.foldl_cons]
      exact ih _ (nodup_keys_setSlot m kv.1 kv.2 h)
  exact hgen l [] (by simp)

theorem pruneParentStep_lookup_ne (m : List (String × ShardData)) (k id : String)
    (h : ¬id = k) : lookupSlot (pruneParentStep m k) id = lookupSlot m id := by
  cases hl : lookupSlot m k with
  | none => simp only [pruneParentStep, hl]
  | some sh =>
    cases hp : sh.parent with
    | none => simp only [pruneParentStep, hl, hp]
    | some par =>
      by_cases hn : (lookupSlot m par).isNone
      · simp only [pruneParentStep, hl, hp, hn, if_true, lookupSlot_setSlot, if_neg h]
      · simp [pruneParentStep, hl, hp, hn]

theorem pruneParentStep_presence (m : List (String × ShardData)) (k id : String) :
    (lookupSlot (pruneParentStep m k) id).isSome = (lookupSlot m id).isSome := by
  by_cases h : id = k
  · subst h
    cases hl : lookupSlot m id with
    | none => simp only [pruneParentStep, hl]
    | some sh =>
      cases hp : sh.parent with
      | none => simp only [pruneParentStep, hl, hp]
      | some par =>
        by_cases hn : (lookupSlot m par).isNone
        · simp [pruneParentStep, hl, hp, hn, lookupSlot_setSlot]
        · simp [pruneParentStep, hl, hp, hn]
  · rw [pruneParentStep_lookup_ne m k id h]

theorem pruneFold_lookup (m0 : List (String × ShardData)) :
    ∀ (ks : List String) (m : List (String × ShardData)),
    (∀ k, (lookupSlot m k).isSome = (lookupSlot m0 k).isSome) → ks.Nodup →
    ∀ id, lookupSlot (ks.foldl pruneParentStep m) id =
      if id ∈ ks then (lookupSlot m id).map (pruneParent m0)
      else lookupSlot m id := by
  intro ks
  induction ks with
  | nil => intro m _ _ id; simp
  | cons k t ih =>
    intro m hpres hnd id
    have hknotin : k ∉ t := (List.nodup_cons.mp hnd).1
    have hndt : t.Nodup := (List.nodup_cons.mp hnd).2
    have hpres1 : ∀ k2, (lookupSlot (pruneParentStep m k) k2).isSome =
        (lookupSlot m0 k2).isSome := by
      intro k2
      rw [pruneParentStep_presence m k k2]
      exact hpres k2
    rw [List.foldl_cons, ih (pruneParentStep m k) hpres1 hndt id]
    by_cases hid : id = k
    · subst hid
      have hidnot : id ∉ t := hknotin
      rw [if_neg hidnot, if_pos (List.mem_cons_self id t)]
      cases hl : lookupSlot m id with
      | none => simp [pruneParentStep, hl]
      | some sh =>
        cases hp : sh.parent with
        | none =>
          simp [pruneParentStep, hl, hp, pruneParent]
        | some par =>
          by_cases hn : (lookupSlot m par).isNone
          · have hm0 : ¬(lookupSlot m0 par).isSome = true := by
              rw [← hpres par]
              rw [Option.isNone_iff_eq_none] at hn
              rw [hn]
              simp
            simp [pruneParentStep, hl, hp, hn, lookupSlot_setSlot, pruneParent, hm0]
          · have hm0 : (lookupSlot m0 par).isSome = true := by
              rw [← hpres par]
              cases hcc : lookupSlot m par with
              | none => rw [hcc] at hn; exact absurd rfl hn
              | some c => rfl
            simp [pruneParentStep, hl, hp, hn, pruneParent, hm0]
    · rw [pruneParentStep_lookup_ne m k id hid]
      by_cases hmem : id ∈ t
      · rw [if_pos hmem, if_pos (List.mem_cons_of_mem k hmem)]
      · rw [if_neg hmem, if_neg (by simp [hid, hmem])]

theorem nodup_keys_buildShardEntries (Shards : List ListedShard) :
    ((buildShardEntries Shards).map Prod.fst).Nodup :=
  nodup_keys_fromEntries _

theorem getStreamShards_presence (Shards : List ListedShard) (k : String) :
    (lookupSlot (getStreamShards Shards) k).isSome =
      (lookupSlot (buildShardEntries Shards) k).isSome := by
  rw [getStreamShards]
  rw [pruneFold_lookup (buildShardEntries Shards)
    ((buildShardEntries Shards).map Prod.fst) (buildShardEntries Shards)
    (fun _ => rfl) (nodup_keys_buildShardEntries Shards) k]
  by_cases hmem : k ∈ (buildShardEntries Shards).map Prod.fst
  · rw [if_pos hmem]
    cases hl : lookupSlot (buildShardEntries Shards) k <;> simp
  · rw [if_neg hmem]

/-- C9: for every entry of the map getStreamShards builds from the listing,
the entry keeps the shard's startingSequenceNumber, and its parent is the
advertised parent id (ParentShardId normalized by the or-null idiom, so an
absent or empty service value is null) exactly when that id is a key of the
resulting map, the parent being erased to null (root promotion) otherwise. -/
theorem getStreamShards_spec (Shards : List ListedShard) (id : String)
    (sh : ShardData) (h : lookupSlot (buildShardEntries Shards) id = some sh) :
    ∃ sh2, lookupSlot (getStreamShards Shards) id = some sh2 ∧
      sh2.startingSequenceNumber = sh.startingSequenceNumber ∧
      sh2.parent = (match sh.parent with
        | some par =>
          if (lookupSlot (getStreamShards Shards) par).isSome then some par else none
        | none => none) := by
  have hmem : id ∈ (buildShardEntries Shards).map Prod.fst :=
    lookupSlot_some_key_mem _ id sh h
  have hfold := pruneFold_lookup (buildShardEntries Shards)
    ((buildShardEntries Shards).map Prod.fst) (buildShardEntries Shards)
    (fun _ => rfl) (nodup_keys_fromEntries _) id
  rw [if_pos hmem, h] at hfold
  simp only [Option.map] at hfold
  refine ⟨pruneParent (buildShardEntries Shards) sh, by rw [getStreamShards]; exact hfold,
    ?_, ?_⟩
  · cases hp : sh.parent with
    | none => simp [pruneParent, hp]
    | some par =>
      by_cases hs : (lookupSlot (buildShardEntries Shards) par).isSome = true
      · simp [pruneParent, hp, hs]
      · simp [pruneParent, hp, hs]
  · cases hp : sh.parent with
    | none => simp [pruneParent, hp]
    | some par =>
      simp only [pruneParent, hp]
      rw [getStreamShards_presence Shards par]
      by_cases hs : (lookupSlot (buildShardEntries Shards) par).isSome = true
      · simp [hs, hp]
      · simp [hs]

theorem getStreamShards_spec_witness :
    ∃ sh2, lookupSlot (getStreamShards shardsListW) "s2" = some sh2 ∧
      sh2.startingSequenceNumber = "30" ∧
      sh2.parent = (match some "sX" with
        | some par =>
          if (lookupSlot (getStreamShards shardsListW) par).isSome then some par
          else none
        | none => none) :=
  getStreamShards_spec shardsListW "s2"
    { parent := some "sX", startingSequenceNumber := "30" } (by decide)

theorem markShardAsDepleted_spec_witness :
    ∃ st2,
      markShardAsDepletedDoc stW ShardsPath.top sdW "shard-0" 9
          (fun _ => 8) (fun _ => 7) none = Except.ok st2 ∧
      shardAt st2 ShardsPath.top "shard-0" =
        some { rW with depleted := true, version := 9 } ∧
      (∀ kv ∈ childrenOf sdW "shard-0",
        ∃ r, shardAt st2 ShardsPath.top kv.1 = some r ∧
          r.checkpoint = some kv.2.startingSequenceNumber ∧ r.version = 7) ∧
      (∀ sid, ¬sid = "shard-0" → (∀ kv ∈ childrenOf sdW "shard-0", ¬sid = kv.1) →
        shardAt st2 ShardsPath.top sid = shardAt stW ShardsPath.top sid) ∧
      st2.consumers = stW.consumers ∧ st2.version = stW.version :=
  (markShardAsDepleted_spec stW sdW "shard-0" 9 (fun _ => 8) (fun _ => 7) rW
    (by decide) (by decide) (by decide)).2 (by decide)

theorem getLastD_mem : ∀ (l : List α) (d : α), l ≠ [] → l.getLastD d ∈ l := by
  intro l
  induction l with
  | nil => intro d hne; exact absurd rfl hne
  | cons a t ih =>
    intro d _
    cases t with
    | nil => simp [List.getLastD]
    | cons b t2 =>
      rw [List.getLastD_cons]
      exact List.mem_cons_of_mem a (ih a (by simp))

theorem afterSeqIndex_lt (c : Nat) :
    ∀ (log : List Nat), List.Pairwise (· < ·) log →
    ∀ x ∈ log.drop (afterSeqIndex log c), c < x := by
  intro log
  induction log with
  | nil => intro _ x hx; simp at hx
  | cons a t ih =>
    intro hp x hx
    have ha : ∀ y ∈ t, a < y := fun y hy => (List.pairwise_cons.mp hp).1 y hy
    have hpt : List.Pairwise (· < ·) t := (List.pairwise_cons.mp hp).2
    by_cases hac : a ≤ c
    · have hcnt : afterSeqIndex (a :: t) c = afterSeqIndex t c + 1 := by
        simp [afterSeqIndex, List.countP_cons, hac]
      rw [hcnt, List.drop_succ_cons] at hx
      exact ih hpt x hx
    · have hca : c < a := Nat.lt_of_not_le hac
      have hz : afterSeqIndex t c = 0 := by
        rw [afterSeqIndex, List.countP_eq_zero]
        intro y hy
        simp only [decide_eq_true_eq]
        exact Nat.not_le.mpr (Nat.lt_trans hca (ha y hy))
      have hz0 : List.countP (fun x => decide (x ≤ c)) t = 0 := hz
      have hcnt : afterSeqIndex (a :: t) c = 0 := by
        rw [afterSeqIndex, List.countP_cons, hz0]
        simp [hac]
      rw [hcnt, List.drop_zero] at hx
      rcases List.mem_cons.mp hx with hx | hx
      · rw [hx]; exact hca
      · exact Nat.lt_trans hca (ha x hx)

theorem take_lt_drop (l : List Nat) (n : Nat) (hs : List.Pairwise (· < ·) l) :
    ∀ x ∈ l.take n, ∀ y ∈ l.drop n, x < y := by
  have h2 : List.Pairwise (· < ·) (l.take n ++ l.drop n) := by
    rw [List.take_append_drop]; exact hs
  exact fun x hx y hy => (List.pairwise_append.mp h2).2.2 x hx y hy

theorem drop_length_take (l : List α) (n : Nat) :
    l.drop (l.take n).length = l.drop n := by
  rw [List.length_take]
  rcases Nat.le_total n l.length with hle | hle
  · rw [Nat.min_eq_left hle]
  · rw [Nat.min_eq_right hle, List.drop_eq_nil_of_le (Nat.le_refl _),
      List.drop_eq_nil_of_le hle]

theorem chain_append_single (w : List Nat) (q : Nat) (hc : List.Chain' (· ≤ ·) w)
    (hub : writtenUB w q) : List.Chain' (· ≤ ·) (w ++ [q]) := by
  rw [List.chain'_append]
  refine ⟨hc, List.chain'_singleton q, ?_⟩
  intro x hx y hy
  have hxm : x ∈ w := List.mem_of_mem_getLast? hx
  have hyq : q = y := by simpa using hy
  rw [← hyq]
  exact hub x hxm

theorem writtenUB_append (w : List Nat) (a q : Nat) (h : writtenUB w q)
    (haq : a ≤ q) : writtenUB (w ++ [a]) q := by
  intro x hx
  rcases List.mem_append.mp hx with hx | hx
  · exact h x hx
  · rw [List.mem_singleton.mp hx]
    exact haq

theorem pollInv_drop_iter (log : List Nat) (s : PollState) (h : pollInv log s) :
    pollInv log { s with iter := none } := by
  obtain ⟨h1, h2, h3, h4, h5⟩ := h
  exact ⟨h1, h2, h3, h4, fun i hi => by exact absurd hi (by simp)⟩

theorem pollInv_set_stopped (log : List Nat) (s : PollState) (h : pollInv log s) :
    pollInv log { s with stopped := true } := by
  obtain ⟨h1, h2, h3, h4, h5⟩ := h
  exact ⟨h1, h2, h3, h4, h5⟩

theorem writePending_inv (log : List Nat) (s : PollState) (h : pollInv log s) :
    pollInv log (writePending s).1 ∧
    (writePending s).1.seqNumToCheckpoint = none ∧
    (writePending s).1.iter = s.iter ∧
    (writePending s).1.stopped = s.stopped := by
  obtain ⟨h1, h2, h3, h4, h5⟩ := h
  cases hq : s.seqNumToCheckpoint with
  | none =>
    simp only [writePending, hq]
    exact ⟨⟨h1, h2, h3, h4, h5⟩, trivial, trivial, trivial⟩
  | some q =>
    simp only [writePending, hq]
    refine ⟨⟨?_, ?_, ?_, ?_, ?_⟩, trivial, trivial, trivial⟩
    · exact chain_append_single s.written q h1 (h2 q hq)
    · intro q2 hq2
      exact absurd hq2 (by simp)
    · intro c hc
      have hcq : c = q := by simpa using hc.symm
      rw [hcq]
      exact writtenUB_append s.written q q (h2 q hq) (Nat.le_refl q)
    · exact Or.inr ⟨q, rfl⟩
    · intro i hi x hx
      have hix := h5 i hi x hx
      refine ⟨writtenUB_append s.written q x (hix.1) (hix.2 q hq), ?_⟩
      intro q2 hq2
      exact absurd hq2 (by simp)

theorem acquire_ub (cfg : PollConfig) (log : List Nat) (s : PollState)
    (hsort : List.Pairwise (· < ·) log) (h : pollInv log s) :
    ∀ x ∈ log.drop (acquireIndex cfg log s), writtenUB s.written x := by
  intro x hx
  cases hi : s.iter with
  | some i =>
    simp only [acquireIndex, hi] at hx
    exact (h.2.2.2.2 i hi x hx).1
  | none =>
    cases hc : s.checkpoint with
    | some c =>
      simp only [acquireIndex, hi, hc] at hx
      have hcx : c < x := afterSeqIndex_lt c log hsort x hx
      intro y hy
      exact Nat.le_trans (h.2.2.1 c hc y hy) (Nat.le_of_lt hcx)
    | none =>
      have hw : s.written = [] := by
        rcases h.2.2.2.1 with hw | ⟨c2, hcc⟩
        · exact hw
        · rw [hc] at hcc; exact absurd hcc (by simp)
      rw [hw]
      intro y hy
      simp at hy

theorem drop_add_own : ∀ (i k : Nat) (l : List α), l.drop (i + k) = (l.drop i).drop k := by
  intro i
  induction i with
  | zero => intro k l; simp
  | succ n ih =>
    intro k l
    cases l with
    | nil => simp
    | cons a t =>
      have hadd : n + 1 + k = (n + k) + 1 := by omega
      rw [hadd, List.drop_succ_cons, ih k t, List.drop_succ_cons]

theorem pollMain_inv (cfg : PollConfig) (log : List Nat) (closed : Bool)
    (msb : Int) (s : PollState) (hsort : List.Pairwise (· < ·) log)
    (h : pollInv log s) : pollInv log (pollMain cfg log closed msb s).1 := by
  obtain ⟨hinv1, hstash, hiter, hstop⟩ := writePending_inv log s h
  simp only [pollMain]
  cases hsw : writePending s with
  | mk s1 evs0 =>
    rw [hsw] at hinv1 hstash hiter hstop
    have hinv : pollInv log s1 := hinv1
    have hstash1 : s1.seqNumToCheckpoint = none := hstash
    obtain ⟨h1, h2, h3, h4, h5⟩ := hinv
    set i := acquireIndex cfg log s1 with hidef
    set records := (log.drop i).take cfg.limit with hrecdef
    set i2 := i + records.length with hi2def
    have hub : ∀ x ∈ log.drop i, writtenUB s1.written x :=
      acquire_ub cfg log s1 hsort ⟨h1, h2, h3, h4, h5⟩
    have hdropi2 : log.drop i2 = (log.drop i).drop cfg.limit := by
      rw [hi2def, drop_add_own, hrecdef, drop_length_take]
    have hub2 : ∀ y ∈ log.drop i2, writtenUB s1.written y := by
      intro y hy
      rw [hdropi2] at hy
      exact hub y ((List.drop_sublist _ _).subset hy)
    have hlast_mem : records ≠ [] → records.getLastD 0 ∈ log.drop i := by
      intro hne
      exact (List.take_sublist _ _).subset (getLastD_mem records 0 hne)
    have hlast_le : records ≠ [] → ∀ y ∈ log.drop i2, records.getLastD 0 ≤ y := by
      intro hne y hy
      rw [hdropi2] at hy
      refine Nat.le_of_lt (take_lt_drop (log.drop i) cfg.limit ?_
        (records.getLastD 0) ?_ y hy)
      · exact List.Pairwise.sublist (List.drop_sublist _ _) hsort
      · rw [hrecdef] at hne ⊢
        exact getLastD_mem _ 0 hne
    by_cases hempty : records.isEmpty = true
    · rw [if_pos hempty]
      by_cases hni : closed = true ∧ log.length ≤ i2
      · rw [if_pos hni]
        exact pollInv_set_stopped log _ (pollInv_drop_iter log s1 ⟨h1, h2, h3, h4, h5⟩)
      · rw [if_neg hni]
        refine ⟨h1, ?_, h3, h4, ?_⟩
        · intro q hq
          rw [hstash1] at hq
          exact absurd hq (by simp)
        · intro j hj x hx
          have hji : i2 = j := Option.some.inj hj
          rw [← hji] at hx
          refine ⟨hub2 x hx, ?_⟩
          intro q hq
          rw [hstash1] at hq
          exact absurd hq (by simp)
    · rw [if_neg hempty]
      have hne : records ≠ [] := by
        intro hh
        rw [hh] at hempty
        exact hempty rfl
      by_cases hauto : cfg.useAutoCheckpoints = true
      · rw [if_pos hauto]
        by_cases hpause : cfg.usePausedPolling = true
        · rw [if_pos hpause]
          refine ⟨h1, ?_, h3, h4, ?_⟩
          · intro q hq
            have hqlast : records.getLastD 0 = q := Option.some.inj hq
            rw [← hqlast]
            exact hub _ (hlast_mem hne)
          · intro j hj x hx
            by_cases hni : closed = true ∧ log.length ≤ i2
            · rw [if_pos hni] at hj
              exact absurd hj (by simp)
            · rw [if_neg hni] at hj
              have hji : i2 = j := Option.some.inj hj
              rw [← hji] at hx
              refine ⟨hub2 x hx, ?_⟩
              intro q hq
              have hqlast : records.getLastD 0 = q := Option.some.inj hq
              rw [← hqlast]
              exact hlast_le hne x hx
        · rw [if_neg hpause]
          refine ⟨?_, ?_, ?_, Or.inr ⟨records.getLastD 0, rfl⟩, ?_⟩
          · exact chain_append_single s1.written _ h1 (hub _ (hlast_mem hne))
          · intro q hq
            rw [hstash1] at hq
            exact absurd hq (by simp)
          · intro c hc
            have hcl : records.getLastD 0 = c := Option.some.inj hc
            rw [← hcl]
            exact writtenUB_append s1.written _ _ (hub _ (hlast_mem hne))
              (Nat.le_refl _)
          · intro j hj x hx
            by_cases hni : closed = true ∧ log.length ≤ i2
            · rw [if_pos hni] at hj
              exact absurd hj (by simp)
            · rw [if_neg hni] at hj
              have hji : i2 = j := Option.some.inj hj
              rw [← hji] at hx
              refine ⟨writtenUB_append s1.written _ x (hub2 x hx)
                (hlast_le hne x hx), ?_⟩
              intro q hq
              rw [hstash1] at hq
              exact absurd hq (by simp)
      · rw [if_neg hauto]
        refine ⟨h1, ?_, h3, h4, ?_⟩
        · intro q hq
          rw [hstash1] at hq
          exact absurd hq (by simp)
        · intro j hj x hx
          by_cases hni : closed = true ∧ log.length ≤ i2
          · rw [if_pos hni] at hj
            exact absurd hj (by simp)
          · rw [if_neg hni] at hj
            have hji : i2 = j := Option.some.inj hj
            rw [← hji] at hx
            refine ⟨hub2 x hx, ?_⟩
            intro q hq
            rw [hstash1] at hq
            exact absurd hq (by simp)

theorem pollStep_inv (cfg : PollConfig) (log : List Nat) (closed : Bool)
    (inp : PollInput) (s0 : PollState) (hsort : List.Pairwise (· < ·) log)
    (h : pollInv log s0) : pollInv log (pollStep cfg log closed inp s0).1 := by
  simp only [pollStep]
  by_cases hst : s0.stopped = true
  · rw [if_pos hst]
    exact h
  · rw [if_neg hst]
    by_cases hexp : inp.expireIter = true
    · rw [if_pos hexp]
      by_cases hlease : inp.leaseExpiration < inp.now
      · rw [if_pos hlease]
        exact pollInv_set_stopped log _ (pollInv_drop_iter log s0 h)
      · rw [if_neg hlease]
        exact pollMain_inv cfg log closed inp.msBehind _ hsort
          (pollInv_drop_iter log s0 h)
    · rw [if_neg hexp]
      by_cases hlease : inp.leaseExpiration < inp.now
      · rw [if_pos hlease]
        exact pollInv_set_stopped log s0 h
      · rw [if_neg hlease]
        exact pollMain_inv cfg log closed inp.msBehind s0 hsort h

theorem runPoll_inv (cfg : PollConfig) (log : List Nat) (closed : Bool)
    (hsort : List.Pairwise (· < ·) log) :
    ∀ (inputs : List PollInput) (s : PollState), pollInv log s →
    pollInv log (runPoll cfg log closed inputs s) := by
  intro inputs
  induction inputs with
  | nil => intro s h; exact h
  | cons inp rest ih =>
    intro s h
    exact ih _ (pollStep_inv cfg log closed inp s hsort h)

/-- C4: over any sequence of poll runs of one Polling Consumer instance
against a shard whose records carry strictly increasing sequence numbers, the
sequence of checkpoint values the instance writes to the State Store via
storeShardCheckpoint is non-decreasing, although each write itself is
unconditional; holds from any freshly constructed state (nothing written yet
and no pending stash), whatever the initial checkpoint, iterator, lease
timing, iterator expirations and reported lags. -/
theorem checkpoints_monotone (cfg : PollConfig) (log : List Nat) (closed : Bool)
    (inputs : List PollInput) (s0 : PollState)
    (hsort : List.Pairwise (· < ·) log) (hw : s0.written = [])
    (hs : s0.seqNumToCheckpoint = none) :
    List.Chain' (· ≤ ·) (runPoll cfg log closed inputs s0).written := by
  have hinv : pollInv log s0 := by
    refine ⟨?_, ?_, ?_, Or.inl hw, ?_⟩
    · rw [hw]; exact List.chain'_nil
    · intro q hq
      rw [hs] at hq
      exact absurd hq (by simp)
    · intro c _
      rw [hw]
      intro x hx
      exact absurd hx (List.not_mem_nil x)
    · intro i _ x _
      constructor
      · rw [hw]
        intro y hy
        exact absurd hy (List.not_mem_nil y)
      · intro q hq
        rw [hs] at hq
        exact absurd hq (by simp)
  exact (runPoll_inv cfg log closed hsort inputs s0 hinv).1

theorem checkpoints_monotone_witness :
    List.Chain' (· ≤ ·)
      (runPoll cfgW [1, 5, 9] false [liveInput, liveInput, liveInput]
        freshPollState).written :=
  checkpoints_monotone cfgW [1, 5, 9] false [liveInput, liveInput, liveInput]
    freshPollState (by decide) (by decide) (by decide)

theorem writePending_events (s : PollState) :
    ∀ ev ∈ (writePending s).2, ∃ q, ev = PollEvent.wroteCheckpoint q := by
  cases hq : s.seqNumToCheckpoint with
  | none => simp [writePending, hq]
  | some q =>
    simp only [writePending, hq]
    intro ev hev
    rcases List.mem_singleton.mp hev with h
    exact ⟨q, h⟩

/-- C5: in every poll where getRecords returns zero records, a missing next
iterator makes the consumer mark the shard depleted and stop itself with no
timer scheduled, while a present next iterator makes it schedule the next poll
with the noRecordsPollDelay delay when millisBehindLatest is at most zero and
with zero delay otherwise. -/
theorem empty_records_behavior (cfg : PollConfig) (log : List Nat) (closed : Bool)
    (inp : PollInput) (s : PollState) (rs : List Nat) (nit : Option Nat) (msb : Int)
    (hmem : PollEvent.fetched rs nit msb ∈ (pollStep cfg log closed inp s).2.events)
    (hempty : rs = []) :
    (nit = none →
      PollEvent.markedDepleted ∈ (pollStep cfg log closed inp s).2.events ∧
      (pollStep cfg log closed inp s).1.stopped = true ∧
      (pollStep cfg log closed inp s).2.delay = none) ∧
    (∀ j, nit = some j →
      (msb ≤ 0 →
        (pollStep cfg log closed inp s).2.delay = some cfg.noRecordsPollDelay) ∧
      (0 < msb → (pollStep cfg log closed inp s).2.delay = some 0)) := by
  simp only [pollStep] at hmem ⊢
  by_cases hst : s.stopped = true
  · rw [if_pos hst] at hmem
    exact absurd hmem (by simp)
  rw [if_neg hst] at hmem ⊢
  by_cases hlease : inp.leaseExpiration < inp.now
  · rw [if_pos hlease] at hmem
    exact absurd hmem (by simp)
  rw [if_neg hlease] at hmem ⊢
  set sx : PollState := if inp.expireIter = true then { s with iter := none } else s
    with hsx
  simp only [pollMain] at hmem ⊢
  cases hsw : writePending sx with
  | mk s1 evs0 =>
    rw [hsw] at hmem
    dsimp only at hmem ⊢
    have hevs0 : ∀ ev ∈ evs0, ∃ q, ev = PollEvent.wroteCheckpoint q := by
      intro ev hev
      exact writePending_events sx ev (by rw [hsw]; exact hev)
    set i := acquireIndex cfg log s1 with hidef
    set records := (log.drop i).take cfg.limit with hrecdef
    set i2 := i + records.length with hi2def
    by_cases hempty2 : records.isEmpty = true
    · rw [if_pos hempty2] at hmem ⊢
      by_cases hni : closed = true ∧ log.length ≤ i2
      · rw [if_pos hni] at hmem ⊢
        simp only [List.mem_append] at hmem
        rcases hmem with hmem | hmem
        · obtain ⟨q, hq⟩ := hevs0 _ hmem
          exact absurd hq (by simp)
        · simp only [List.mem_cons, List.mem_singleton] at hmem
          rcases hmem with hmem | hmem
          · have hnit : nit = none := by
              have := PollEvent.fetched.inj hmem
              exact this.2.1
            constructor
            · intro _
              refine ⟨?_, rfl, rfl⟩
              simp
            · intro j hj
              rw [hnit] at hj
              exact absurd hj (by simp)
          · exact absurd hmem (by simp)
      · rw [if_neg hni] at hmem ⊢
        simp only [List.mem_append] at hmem
        rcases hmem with hmem | hmem
        · obtain ⟨q, hq⟩ := hevs0 _ hmem
          exact absurd hq (by simp)
        · simp only [List.mem_singleton] at hmem
          have hinj := PollEvent.fetched.inj hmem
          have hnit : nit = some i2 := hinj.2.1
          have hmsb : msb = inp.msBehind := hinj.2.2
          constructor
          · intro hcontra
            rw [hnit] at hcontra
            exact absurd hcontra (by simp)
          · intro j _
            constructor
            · intro hle
              rw [hmsb] at hle
              rw [if_pos hle]
            · intro hlt
              rw [hmsb] at hlt
              rw [if_neg (by omega)]
    · rw [if_neg hempty2] at hmem
      simp only [List.mem_append] at hmem
      rcases hmem with ((hmem | hmem) | hmem) | hmem
      · obtain ⟨q, hq⟩ := hevs0 _ hmem
        exact absurd hq (by simp)
      · simp only [List.mem_singleton] at hmem
        have hinj := PollEvent.fetched.inj hmem
        have : records = rs := hinj.1.symm
        rw [hempty] at this
        rw [this] at hempty2
        exact absurd rfl hempty2
      · by_cases hauto : cfg.useAutoCheckpoints = true
        · rw [if_pos hauto] at hmem
          by_cases hpause : cfg.usePausedPolling = true
          · rw [if_pos hpause] at hmem
            exact absurd hmem (by simp)
          · rw [if_neg hpause] at hmem
            simp only [List.mem_singleton] at hmem
            exact absurd hmem (by simp)
        · rw [if_neg hauto] at hmem
          exact absurd hmem (by simp)
      · simp only [List.mem_singleton] at hmem
        exact absurd hmem (by simp)

theorem empty_records_behavior_witness :
    PollEvent.markedDepleted ∈
      (pollStep cfgW [] true liveInput freshPollState).2.events ∧
    (pollStep cfgW [] true liveInput freshPollState).1.stopped = true ∧
    (pollStep cfgW [] true liveInput freshPollState).2.delay = none :=
  (empty_records_behavior cfgW [] true liveInput freshPollState [] none 0
    (by decide) rfl).1 rfl

theorem pollMain_paused (cfg : PollConfig) (log : List Nat) (closed : Bool)
    (msb : Int) (sx : PollState) (rs : List Nat)
    (hauto : cfg.useAutoCheckpoints = true) (hpause : cfg.usePausedPolling = true)
    (hstash : sx.seqNumToCheckpoint = none)
    (hmem : PollEvent.pushed rs ∈ (pollMain cfg log closed msb sx).2.events) :
    (pollMain cfg log closed msb sx).2.delay = none ∧
    (pollMain cfg log closed msb sx).1.seqNumToCheckpoint = some (rs.getLastD 0) ∧
    (pollMain cfg log closed msb sx).1.written = sx.written ∧
    (∀ q, PollEvent.wroteCheckpoint q ∉ (pollMain cfg log closed msb sx).2.events) ∧
    (pollMain cfg log closed msb sx).1.stopped = sx.stopped := by
  have hsw : writePending sx = (sx, []) := by
    simp [writePending, hstash]
  simp only [pollMain, hsw] at hmem ⊢
  set i := acquireIndex cfg log sx with hidef
  set records := (log.drop i).take cfg.limit with hrecdef
  set i2 := i + records.length with hi2def
  by_cases hempty : records.isEmpty = true
  · rw [if_pos hempty] at hmem
    by_cases hni : closed = true ∧ log.length ≤ i2
    · rw [if_pos hni] at hmem
      exact absurd hmem (by simp)
    · rw [if_neg hni] at hmem
      exact absurd hmem (by simp)
  · rw [if_neg hempty] at hmem ⊢
    rw [if_pos hauto] at hmem ⊢
    rw [if_pos hpause] at hmem ⊢
    have hrs : rs = records := by
      simp at hmem
      exact hmem
    rw [hrs]
    refine ⟨by rw [if_pos hpause], rfl, rfl, ?_, rfl⟩
    intro q hq
    simp at hq

theorem pollStep_first_write (cfg : PollConfig) (log : List Nat) (closed : Bool)
    (inp2 : PollInput) (sp : PollState) (q : Nat)
    (hstop : sp.stopped = false) (hq : sp.seqNumToCheckpoint = some q)
    (hlease : ¬inp2.leaseExpiration < inp2.now) :
    (pollStep cfg log closed inp2 sp).2.events.head? =
      some (PollEvent.wroteCheckpoint q) := by
  simp only [pollStep]
  rw [if_neg (by rw [hstop]; exact Bool.false_ne_true)]
  rw [if_neg hlease]
  by_cases hexp : inp2.expireIter = true
  · rw [if_pos hexp]
    have hsw : writePending { sp with iter := none } =
        ({ sp with
            iter := none
            written := sp.written ++ [q]
            checkpoint := some q
            seqNumToCheckpoint := none },
         [PollEvent.wroteCheckpoint q]) := by
      simp only [writePending, hq]
    simp only [pollMain, hsw]
    split
    · split
      · rfl
      · rfl
    · rfl
  · rw [if_neg hexp]
    have hsw : writePending sp =
        ({ sp with
            written := sp.written ++ [q]
            checkpoint := some q
            seqNumToCheckpoint := none },
         [PollEvent.wroteCheckpoint q]) := by
      simp only [writePending, hq]
    simp only [pollMain, hsw]
    split
    · split
      · rfl
      · rfl
    · rfl

/-- C6: with paused polling and auto checkpoints both on, a poll run that
delivers a batch downstream schedules no timer (the next fetch happens only
when the downstream invokes continuePolling), writes no checkpoint during
that run and stashes the last record's sequence number into
seqNumToCheckpoint instead; and the next poll run, whenever it happens under
a live lease, has that stashed sequence number's State Store write as its
very first event, before any record fetch. Stated from a state with no
pending stash (the previous batch already acknowledged). -/
theorem paused_polling_behavior (cfg : PollConfig) (log : List Nat) (closed : Bool)
    (inp : PollInput) (s : PollState) (rs : List Nat)
    (hauto : cfg.useAutoCheckpoints = true) (hpause : cfg.usePausedPolling = true)
    (hstash : s.seqNumToCheckpoint = none)
    (hmem : PollEvent.pushed rs ∈ (pollStep cfg log closed inp s).2.events) :
    (pollStep cfg log closed inp s).2.delay = none ∧
    (pollStep cfg log closed inp s).1.seqNumToCheckpoint = some (rs.getLastD 0) ∧
    (pollStep cfg log closed inp s).1.written = s.written ∧
    (∀ q, PollEvent.wroteCheckpoint q ∉ (pollStep cfg log closed inp s).2.events) ∧
    (pollStep cfg log closed inp s).1.stopped = false ∧
    (∀ inp2, ¬inp2.leaseExpiration < inp2.now →
      (pollStep cfg log closed inp2 (pollStep cfg log closed inp s).1).2.events.head? =
        some (PollEvent.wroteCheckpoint (rs.getLastD 0))) := by
  have hmain :
      (pollStep cfg log closed inp s).2.delay = none ∧
      (pollStep cfg log closed inp s).1.seqNumToCheckpoint = some (rs.getLastD 0) ∧
      (pollStep cfg log closed inp s).1.written = s.written ∧
      (∀ q, PollEvent.wroteCheckpoint q ∉ (pollStep cfg log closed inp s).2.events) ∧
      (pollStep cfg log closed inp s).1.stopped = false := by
    simp only [pollStep] at hmem ⊢
    by_cases hst : s.stopped = true
    · rw [if_pos hst] at hmem
      exact absurd hmem (by simp)
    have hstf : s.stopped = false := by
      cases hcc : s.stopped
      · rfl
      · exact absurd hcc hst
    rw [if_neg hst] at hmem ⊢
    by_cases hlease : inp.leaseExpiration < inp.now
    · rw [if_pos hlease] at hmem
      exact absurd hmem (by simp)
    rw [if_neg hlease] at hmem ⊢
    by_cases hexp : inp.expireIter = true
    · rw [if_pos hexp] at hmem ⊢
      obtain ⟨c1, c2, c3, c4, c5⟩ :=
        pollMain_paused cfg log closed inp.msBehind { s with iter := none } rs
          hauto hpause hstash hmem
      exact ⟨c1, c2, c3, c4, by rw [c5]; exact hstf⟩
    · rw [if_neg hexp] at hmem ⊢
      obtain ⟨c1, c2, c3, c4, c5⟩ :=
        pollMain_paused cfg log closed inp.msBehind s rs hauto hpause hstash hmem
      exact ⟨c1, c2, c3, c4, by rw [c5]; exact hstf⟩
  refine ⟨hmain.1, hmain.2.1, hmain.2.2.1, hmain.2.2.2.1, hmain.2.2.2.2, ?_⟩
  intro inp2 hlease2
  exact pollStep_first_write cfg log closed inp2 (pollStep cfg log closed inp s).1
    (rs.getLastD 0) hmain.2.2.2.2 hmain.2.1 hlease2

theorem paused_polling_behavior_witness :
    (pollStep cfgWP [4, 7] false liveInput freshPollState).2.delay = none ∧
    (pollStep cfgWP [4, 7] false liveInput freshPollState).1.seqNumToCheckpoint =
      some ([4, 7].getLastD 0) ∧
    (pollStep cfgWP [4, 7] false liveInput freshPollState).1.written =
      freshPollState.written ∧
    (∀ q, PollEvent.wroteCheckpoint q ∉
      (pollStep cfgWP [4, 7] false liveInput freshPollState).2.events) ∧
    (pollStep cfgWP [4, 7] false liveInput freshPollState).1.stopped = false ∧
    (∀ inp2, ¬inp2.leaseExpiration < inp2.now →
      (pollStep cfgWP [4, 7] false inp2
        (pollStep cfgWP [4, 7] false liveInput freshPollState).1).2.events.head? =
        some (PollEvent.wroteCheckpoint ([4, 7].getLastD 0))) :=
  paused_polling_behavior cfgWP [4, 7] false liveInput freshPollState [4, 7]
    (by decide) (by decide) (by decide) (by decide)
